import Mathlib

set_option autoImplicit false

set_option maxRecDepth 40000

namespace BitQuill

/-!
Shallow embedding of the BitQuill core (VDF engine, VDF clock, Merkle
document engine, verifier) from the Rust sources.  SHA-256 (the external
`sha2` crate) is modelled as an abstract byte function passed as a
parameter named `sha`; all structural properties proved below hold for
every choice of that function.  Strings are modelled as their byte lists,
big integers (`num_bigint::BigUint`) as `Nat`, and `SystemTime` as a
signed count of nanoseconds since the Unix epoch.
-/

/-- Byte list of an ASCII string constant (Rust `str::as_bytes`). -/
def strBytes (s : String) : List Nat := s.data.map Char.toNat

/-- Big-endian byte list of a `u64` value (Rust `u64::to_be_bytes`). -/
def be64 (n : Nat) : List Nat :=
  [n / 2 ^ 56 % 256, n / 2 ^ 48 % 256, n / 2 ^ 40 % 256, n / 2 ^ 32 % 256,
   n / 2 ^ 24 % 256, n / 2 ^ 16 % 256, n / 2 ^ 8 % 256, n % 256]

/-- Big-endian bytes interpreted as a natural number
(num_bigint `BigUint::from_bytes_be`). -/
def fromBytesBE (bs : List Nat) : Nat := bs.foldl (fun a b => 256 * a + b) 0

/-- Auxiliary digit expansion with explicit fuel (structural recursion). -/
def natToBytesAux : Nat → Nat → List Nat
  | 0, _ => []
  | fuel + 1, n => if n = 0 then [] else natToBytesAux fuel (n / 256) ++ [n % 256]

/-- Minimal big-endian byte encoding of a natural number
(num_bigint `BigUint::to_bytes_be`; zero encodes as the single byte 0). -/
def natToBytesBE (n : Nat) : List Nat :=
  if n = 0 then [0] else natToBytesAux n n

/-- Lowercase hex character code of a nibble (`hex::encode` alphabet). -/
def hexChar (n : Nat) : Nat := if n < 10 then 48 + n else 97 + (n - 10)

/-- Byte list of the lowercase hex string of a byte list (Rust `hex::encode`). -/
def hexEncode (bs : List Nat) : List Nat :=
  bs.foldr (fun b acc => hexChar (b / 16) :: hexChar (b % 16) :: acc) []

/-- Auxiliary bit-length computation with explicit fuel. -/
def bitLenAux : Nat → Nat → Nat
  | 0, _ => 0
  | fuel + 1, n => if n = 0 then 0 else bitLenAux fuel (n / 2) + 1

/-- Bit length of a natural number (num_bigint `BigUint::bits`; zero has 0 bits). -/
def bitLen (n : Nat) : Nat := bitLenAux n n

/-- Auxiliary binary modular exponentiation with explicit fuel. -/
def modPowAux (m : Nat) : Nat → Nat → Nat → Nat
  | 0, _, _ => 1 % m
  | fuel + 1, b, e =>
    if e = 0 then 1 % m
    else
      let h := modPowAux m fuel (b * b % m) (e / 2)
      if e % 2 = 1 then h * b % m else h

/-- Modular exponentiation `b ^ e mod m` by binary square-and-multiply
(the contract of num_bigint `BigUint::modpow`). -/
def modPow (b e m : Nat) : Nat := modPowAux m e b e

/-! ### VDF engine arithmetic

Embedded from `vdf-wasm/src/lib.rs` (`compute_vdf_output`,
`compute_wesolowski_proof`, `compute_remainder`) and `src/main.rs`
(`VDF::compute_with_proof`, `VDF::verify`, `compute_vdf_proof`).
-/

/-- Sequential squaring `y = x^(2^t) mod N` (wasm `compute_vdf_output`,
main.rs squaring loop `for _ in 0..iterations { y = (&y * &y) % modulus }`). -/
def computeVdfOutput (N x t : Nat) : Nat := (fun y => y * y % N)^[t] x

/-- One step of the bit-by-bit long division of `2^t` by `l` interleaved
with square-and-multiply (the body of the `for` loop of wasm
`compute_wesolowski_proof`, lines 429-449): square `pi`, shift the
remainder, bring down the bit `b`, and on overflow subtract `l` and
multiply by `x`. -/
def wesStep (x N l b : Nat) (s : Nat × Nat) : Nat × Nat :=
  let p := s.1 * s.1 % N
  let r := 2 * s.2 + b
  if l ≤ r then (p * x % N, r - l) else (p, r)

/-- State of the long-division loop after the leading bit (value 1, at
position `t`) and then `t` zero bits have been processed; the Rust loop
`for i in (0..=iterations).rev()` runs `t+1` iterations starting from
`(pi, remainder) = (1, 0)`. -/
def wesPair (x t l N : Nat) : Nat × Nat :=
  (wesStep x N l 0)^[t] (wesStep x N l 1 (1, 0))

/-- Wesolowski proof element computed by the bit-by-bit long division
(wasm `compute_wesolowski_proof`). -/
def computeWesolowskiProof (x t l N : Nat) : Nat := (wesPair x t l N).1

/-- Remainder `r = 2^t mod l` (wasm `compute_remainder`, via the modpow
contract). -/
def computeRemainder (t l : Nat) : Nat := 2 ^ t % l

/-- Proof structure of main.rs (`VDFProof { y, pi, l, r }`), all fields
big-endian byte strings. -/
structure VDFProofM where
  y : List Nat
  pi : List Nat
  l : List Nat
  r : List Nat
deriving DecidableEq, Repr

/-- Model of main.rs `VDF::verify` (lines 406-428): hash the input to get
`x`, decode the proof fields, and accept iff `y == pi^l * x^r mod N`.
No other check is performed by this function. -/
def vdfVerify (sha : List Nat → List Nat) (N : Nat) (input : List Nat)
    (p : VDFProofM) : Bool :=
  let x := fromBytesBE (sha input)
  let y := fromBytesBE p.y
  let pi := fromBytesBE p.pi
  let l := fromBytesBE p.l
  let r := fromBytesBE p.r
  y == modPow pi l N * modPow x r N % N

/-! ### Constants (src/constants.rs) -/

def INITIAL_VDF_ITERATIONS : Nat := 100000

def MIN_VDF_ITERATIONS : Nat := 250000

def MAX_VDF_ITERATIONS : Nat := 1000000000

def ABSOLUTE_MIN_ITERATIONS : Nat := 100000

def DIFFICULTY_WINDOW_SIZE : Nat := 1000

def MAX_ALLOWED_LEAVES : Nat := 50000

def MAX_CONTENT_SIZE : Nat := 1000000

/-! ### Data model (src/merkle/types.rs)

`SystemTime` values are modelled as signed nanoseconds since the Unix
epoch (they may precede the epoch); `Instant` fields, which are neither
serialized nor hashed, are omitted.  Rust `String` fields hold their
byte lists. -/

structure DocumentStateM where
  content : List Nat
  systemTime : Int
  stateHash : List Nat
deriving DecidableEq, Repr, Inhabited

structure MerkleLeafM where
  documentState : DocumentStateM
  vdfTickReference : Nat
  prevLeafHash : List Nat
  timestamp : Int
  hash : List Nat
  leafNumber : Nat
  commitment : List Nat
deriving DecidableEq, Repr, Inhabited

structure MerkleNodeM where
  hash : List Nat
  height : Nat
  leftChildHash : Option (List Nat)
  rightChildHash : Option (List Nat)
deriving DecidableEq, Repr, Inhabited

inductive MerkleTreeElementM where
  | node (n : MerkleNodeM)
  | leaf (lf : MerkleLeafM)
deriving DecidableEq, Repr, Inhabited

structure VDFClockTickM where
  outputY : List Nat
  proof : VDFProofM
  sequenceNumber : Nat
  prevOutputHash : List Nat
  systemTime : Int
  iterations : Nat
deriving DecidableEq, Repr

inductive BitQuillErrorM where
  | hashError
  | stateError
  | resourceExhaustedError
deriving DecidableEq, Repr

/-! ### Leaf and node hashing (src/merkle/hash.rs) -/

/-- Whole seconds since the Unix epoch of a SystemTime (nanoseconds);
`duration_since(UNIX_EPOCH)` errors when the time precedes the epoch. -/
def timestampSecs (t : Int) : Except BitQuillErrorM Nat :=
  if t < 0 then .error .hashError else .ok (t.toNat / 1000000000)

/-- Model of `calculate_leaf_hash` (hash.rs lines 7-33): SHA-256 over
state_hash bytes, tick reference (be64), prev_leaf_hash bytes,
commitment bytes, timestamp whole seconds (be64), leaf number (be64),
hex encoded; fails when the timestamp precedes the epoch. -/
def calculateLeafHash (sha : List Nat → List Nat) (leaf : MerkleLeafM) :
    Except BitQuillErrorM (List Nat) :=
  match timestampSecs leaf.timestamp with
  | .error e => .error e
  | .ok secs =>
    .ok (hexEncode (sha (leaf.documentState.stateHash ++ be64 leaf.vdfTickReference ++
      leaf.prevLeafHash ++ leaf.commitment ++ be64 secs ++ be64 leaf.leafNumber)))

/-- Model of `calculate_node_hash` (hash.rs lines 36-46): SHA-256 of the
left hash bytes followed by the right hash bytes, hex encoded.  The
source skips an empty right hash, which under concatenation is the
identity, so the guard is a no-op. -/
def calculateNodeHash (sha : List Nat → List Nat) (leftHash rightHash : List Nat) :
    List Nat :=
  hexEncode (sha (leftHash ++ rightHash))

/-- Model of `get_element_hash` (hash.rs lines 49-54). -/
def getElementHash : MerkleTreeElementM → List Nat
  | .node n => n.hash
  | .leaf lf => lf.hash

/-- Hex-encoded SHA-256 of the fixed genesis-leaf phrase. -/
def genesisLeafHash (sha : List Nat → List Nat) : List Nat :=
  hexEncode (sha (strBytes ("MerkleQuill Genesis Leaf")))

/-! ### Document aggregate (src/merkle/types.rs `MerkleDocument`)

Channel endpoints, thread handles and `Instant` fields are omitted; the
VDF engine is represented by its modulus. -/

structure MerkleDocumentM where
  root : Option MerkleNodeM
  leaves : List MerkleLeafM
  nodes : List MerkleNodeM
  editIntervals : List (Int × Nat)
  currentState : DocumentStateM
  modulus : Nat
  latestTick : Option VDFClockTickM
  historicalTicks : List (Nat × VDFClockTickM)
  tickTimestamps : List (Nat × Int)
  currentIterations : Nat
  lastLeafTick : Nat
  pendingChanges : Bool
  dirty : Bool
deriving DecidableEq, Repr

/-- `HashMap::get` over the tick map (association list keyed by
sequence number). -/
def lookupTick (ticks : List (Nat × VDFClockTickM)) (n : Nat) :
    Option VDFClockTickM :=
  (ticks.find? (fun p => p.1 == n)).map (fun p => p.2)

/-- `HashMap::insert` over the tick map: the new binding replaces any
existing binding of the same key. -/
def insertTick (ticks : List (Nat × VDFClockTickM)) (n : Nat)
    (t : VDFClockTickM) : List (Nat × VDFClockTickM) :=
  (n, t) :: ticks.filter (fun p => !(p.1 == n))

/-! ### Document engine (src/merkle/document.rs) -/

/-- Initial document state built by `MerkleDocument::new` (document.rs
lines 122-152).  The generated RSA modulus and the wall-clock reading
are inputs, since prime generation and clock readings are
non-deterministic. -/
def newDocument (sha : List Nat → List Nat) (modulus : Nat) (now : Int) :
    MerkleDocumentM :=
  { root := none
    leaves := []
    nodes := []
    editIntervals := []
    currentState :=
      { content := []
        systemTime := now
        stateHash := hexEncode (sha (strBytes ("MerkleQuill Genesis"))) }
    modulus := modulus
    latestTick := none
    historicalTicks := []
    tickTimestamps := []
    currentIterations := INITIAL_VDF_ITERATIONS
    lastLeafTick := 0
    pendingChanges := false
    dirty := false }

/-- Per-tick effect of `process_vdf_ticks` (document.rs lines 160-177)
on the document state: store the tick, update the latest tick, and
append to the sliding timestamp window (dropping from the front while
over `DIFFICULTY_WINDOW_SIZE`).  The difficulty-adjustment side effect
touches only `current_iterations` and the control channel and is
modelled by the separate `adjust` step of `Reachable`. -/
def processTick (d : MerkleDocumentM) (tick : VDFClockTickM) : MerkleDocumentM :=
  let ts := d.tickTimestamps ++ [(tick.sequenceNumber, tick.systemTime)]
  let ts := ts.drop (ts.length - DIFFICULTY_WINDOW_SIZE)
  { d with
      historicalTicks := insertTick d.historicalTicks tick.sequenceNumber tick
      latestTick := some tick
      tickTimestamps := ts }

/-- Model of `record_edit_interval` (document.rs lines 513-542). -/
def recordEditInterval (intervals : List (Int × Nat)) (timestamp : Int) :
    List (Int × Nat) :=
  match intervals.getLast? with
  | none => [(timestamp, 0)]
  | some last =>
    let secs := if last.1 ≤ timestamp
      then (timestamp - last.1).toNat / 1000000000 else 0
    let appended := intervals ++ [(timestamp, secs)]
    if 1000 < appended.length then appended.tail else appended

/-- One level collapse of `rebuild_merkle_tree` (the `for chunk in
current_level.chunks(2)` loop, document.rs lines 343-371): pair
consecutive elements left-to-right, build a parent node per pair,
promote an unpaired trailing element unchanged.  Also returns the
created nodes (inserted into the node map). -/
def collapseLevel (sha : List Nat → List Nat) (height : Nat) :
    List MerkleTreeElementM → (List MerkleTreeElementM × List MerkleNodeM)
  | a :: b :: rest =>
    let leftHash := getElementHash a
    let rightHash := getElementHash b
    let h := calculateNodeHash sha leftHash rightHash
    let node : MerkleNodeM :=
      { hash := h
        height := height
        leftChildHash := some leftHash
        rightChildHash := some rightHash }
    let res := collapseLevel sha height rest
    (.node node :: res.1, node :: res.2)
  | [a] => ([a], [])
  | [] => ([], [])

/-- The `while current_level.len() > 1` loop of `rebuild_merkle_tree`
(document.rs lines 332-374).  The source checks `height > 100` before
each collapse and increments `height`; equivalently the remaining
allowed collapses (`fuel`, initially 101) decrease to the error. -/
def rebuildLoop (sha : List Nat → List Nat) :
    Nat → Nat → List MerkleNodeM → List MerkleTreeElementM →
    Except BitQuillErrorM (List MerkleTreeElementM × List MerkleNodeM)
  | fuel, height, nodes, level =>
    if level.length ≤ 1 then .ok (level, nodes)
    else match fuel with
      | 0 => .error .stateError
      | fuel + 1 =>
        let c := collapseLevel sha (height + 1) level
        rebuildLoop sha fuel (height + 1) (nodes ++ c.2) c.1

/-- Model of `rebuild_merkle_tree` (document.rs lines 314-394) as a
function of the leaf list, returning the new root and node map. -/
def rebuildMerkleTree (sha : List Nat → List Nat) (leaves : List MerkleLeafM) :
    Except BitQuillErrorM (Option MerkleNodeM × List MerkleNodeM) :=
  if leaves.isEmpty then .ok (none, [])
  else
    match rebuildLoop sha 101 0 [] (leaves.map .leaf) with
    | .error e => .error e
    | .ok (level, nodes) =>
      match level with
      | .node n :: _ => .ok (some n, nodes)
      | .leaf lf :: _ =>
        let n : MerkleNodeM :=
          { hash := lf.hash
            height := 1
            leftChildHash := some lf.hash
            rightChildHash := none }
        .ok (some n, n :: nodes)
      | [] => .ok (none, nodes)

/-- Previous-leaf hash used by `create_leaf` (document.rs lines
257-260): hash of the last leaf, or the genesis leaf hash when there is
none. -/
def expectedPrevLeafHash (sha : List Nat → List Nat)
    (leaves : List MerkleLeafM) : List Nat :=
  match leaves.getLast? with
  | none => genesisLeafHash sha
  | some leaf => leaf.hash

/-- Commitment computed by `create_leaf` (document.rs lines 267-275):
SHA-256 over state_hash bytes ‖ tick.output_y ‖ tick number (be64) ‖
previous commitment bytes (omitted when absent), hex encoded. -/
def leafCommitment (sha : List Nat → List Nat) (stateHash : List Nat)
    (tick : VDFClockTickM) (tickNumber : Nat)
    (prevCommitment : Option (List Nat)) : List Nat :=
  hexEncode (sha (stateHash ++ tick.outputY ++ be64 tickNumber ++
    (match prevCommitment with | some p => p | none => [])))

/-- Model of `MerkleDocument::create_leaf` (document.rs lines 239-311).
The wall-clock reading `SystemTime::now()` is the input `now`
(nanoseconds since epoch); the single reading is used both for hashing
and for storage, as in the source.  Only the success path is a state
transition; on error the returned state is unused by callers modelled
here. -/
def createLeaf (sha : List Nat → List Nat) (d : MerkleDocumentM)
    (tickNumber : Nat) (now : Int) : Except BitQuillErrorM MerkleDocumentM :=
  if MAX_ALLOWED_LEAVES ≤ d.leaves.length then .error .resourceExhaustedError
  else match lookupTick d.historicalTicks tickNumber with
  | none => .error .stateError
  | some tick =>
    let commitment := leafCommitment sha d.currentState.stateHash tick tickNumber
      (d.leaves.getLast?.map (fun leaf => leaf.commitment))
    let tempLeaf : MerkleLeafM :=
      { documentState := d.currentState
        vdfTickReference := tickNumber
        prevLeafHash := expectedPrevLeafHash sha d.leaves
        timestamp := now
        hash := []
        leafNumber := d.leaves.length + 1
        commitment := commitment }
    match calculateLeafHash sha tempLeaf with
    | .error e => .error e
    | .ok h =>
      let newLeaf := { tempLeaf with hash := h }
      let newLeaves := d.leaves ++ [newLeaf]
      match rebuildMerkleTree sha newLeaves with
      | .error e => .error e
      | .ok rn =>
        .ok { d with
                leaves := newLeaves
                root := rn.1
                nodes := rn.2
                dirty := true
                editIntervals := recordEditInterval d.editIntervals now }

/-- Model of `record_paragraph` (document.rs lines 628-654). -/
def recordParagraph (sha : List Nat → List Nat) (d : MerkleDocumentM)
    (content : List Nat) (now : Int) : Except BitQuillErrorM MerkleDocumentM :=
  if MAX_CONTENT_SIZE < content.length then .error .resourceExhaustedError
  else .ok { d with
               currentState :=
                 { content := content
                   systemTime := now
                   stateHash := hexEncode (sha content) }
               pendingChanges := true
               dirty := true }

/-! ### VDF clock thread (document.rs lines 34-120) -/

/-- Fallback proof substituted by the clock thread when proof
computation fails (document.rs lines 80-93): y and pi are
SHA-256(input ‖ "fallback"), l is the constant prime 65537, r is 1. -/
def fallbackProof (sha : List Nat → List Nat) (input : List Nat) : VDFProofM :=
  let h := sha (input ++ strBytes ("fallback"))
  { y := h, pi := h, l := natToBytesBE 65537, r := natToBytesBE 1 }

/-- One loop iteration of the VDF clock thread (document.rs lines
42-119): emit a tick for `input` at difficulty `iterations`.  The proof
computation (`crate::vdf::compute_vdf_proof`, whose fallible wrapper is
not under src/) is a parameter; on failure the fallback proof is
substituted and the tick is emitted anyway. -/
def clockEmitTick (sha : List Nat → List Nat)
    (computeProof : List Nat → Nat → Except BitQuillErrorM VDFProofM)
    (input : List Nat) (iterations seq : Nat) (now : Int) : VDFClockTickM :=
  let prevOutputHash := hexEncode (sha input)
  let proof := match computeProof input iterations with
    | .ok p => p
    | .error _ => fallbackProof sha input
  { outputY := proof.y
    proof := proof
    sequenceNumber := seq
    prevOutputHash := prevOutputHash
    systemTime := now
    iterations := iterations }

/-- Difficulty held by the clock thread after a sequence of
control-channel polls (`none`: channel empty this round): it starts at
`INITIAL_VDF_ITERATIONS` and every received update is clamped into
`[MIN_VDF_ITERATIONS, MAX_VDF_ITERATIONS]` (document.rs lines 56-69). -/
def clockIterations (updates : List (Option Nat)) : Nat :=
  updates.foldl (fun cur u => match u with
    | some n => min (max n MIN_VDF_ITERATIONS) MAX_VDF_ITERATIONS
    | none => cur) INITIAL_VDF_ITERATIONS

/-! ### Persistence (src/merkle/export.rs) -/

/-- Parsed on-disk document (`MerkleQuillFile`, types.rs lines 134-145);
metadata is irrelevant to the claims and omitted. -/
structure MerkleQuillFileM where
  leaves : Option (List MerkleLeafM)
  nodes : Option (List MerkleNodeM)
  rootHash : Option (List Nat)
  vdfTicks : Option (List VDFClockTickM)
  modulus : Option (List Nat)
  currentIterations : Nat
deriving DecidableEq, Repr

/-- Stable insertion by `leafNumber` (used to model `Vec::sort_by_key`,
which is a stable sort). -/
def insertByNumber (leaf : MerkleLeafM) : List MerkleLeafM → List MerkleLeafM
  | [] => [leaf]
  | x :: xs =>
    if x.leafNumber ≤ leaf.leafNumber then x :: insertByNumber leaf xs
    else leaf :: x :: xs

/-- Stable sort of the leaf list by `leafNumber`
(`self.leaves.sort_by_key(|l| l.leaf_number)`). -/
def sortLeaves (leaves : List MerkleLeafM) : List MerkleLeafM :=
  leaves.foldr insertByNumber []

/-- Largest key of the tick map (`self.historical_ticks.keys().max()`). -/
def maxTickKey (ticks : List (Nat × VDFClockTickM)) : Option Nat :=
  ticks.foldl (fun acc p => match acc with
    | none => some p.1
    | some m => some (max m p.1)) none

/-- Edit intervals rebuilt from loaded leaf timestamps (export.rs lines
315-331); interval 0 when time went backwards. -/
def editIntervalsTail (prev : MerkleLeafM) : List MerkleLeafM → List (Int × Nat)
  | [] => []
  | c :: cs =>
    (c.timestamp,
      if prev.timestamp ≤ c.timestamp
      then (c.timestamp - prev.timestamp).toNat / 1000000000 else 0) ::
      editIntervalsTail c cs

def editIntervalsOf : List MerkleLeafM → List (Int × Nat)
  | [] => []
  | first :: rest => (first.timestamp, 0) :: editIntervalsTail first rest

/-- Model of `MerkleDocument::load_from_file` (export.rs lines 159-339)
after successful file reading and JSON parsing.  The VDF modulus
reconstruction when the file has no usable modulus bytes
(`crate::vdf::VDF::new(2048)`, randomized prime generation whose module
is not under src/) is supplied as `newModulus`; when the file has
non-empty modulus bytes, `from_modulus_bytes` (main.rs lines 447-450)
just decodes them.  `now` stands for the wall-clock readings.  No
validation of leaf chaining or numbering is performed anywhere in this
function. -/
def loadFromFile (sha : List Nat → List Nat) (d : MerkleDocumentM)
    (file : MerkleQuillFileM) (newModulus : Except BitQuillErrorM Nat)
    (now : Int) : Except BitQuillErrorM MerkleDocumentM :=
  -- Load leaves (resource cap, then stable sort by leaf number).
  match ((match file.leaves with
    | some ls =>
      if MAX_ALLOWED_LEAVES < ls.length then .error .resourceExhaustedError
      else .ok (sortLeaves ls)
    | none => .ok []) : Except BitQuillErrorM (List MerkleLeafM)) with
  | .error e => .error e
  | .ok leaves =>
    -- current_state from the last loaded leaf, else a fresh genesis state.
    let currentState := match leaves.getLast? with
      | some lastLeaf => lastLeaf.documentState
      | none =>
        { content := []
          systemTime := now
          stateHash := hexEncode (sha (strBytes ("MerkleQuill Genesis"))) }
    -- Load nodes (resource cap).
    match ((match file.nodes with
      | some ns =>
        if MAX_ALLOWED_LEAVES * 2 < ns.length then .error .resourceExhaustedError
        else .ok ns
      | none => .ok []) : Except BitQuillErrorM (List MerkleNodeM)) with
    | .error e => .error e
    | .ok nodes =>
      -- Root from the loaded nodes, rebuilding when inconsistent.
      match ((match file.rootHash with
        | some rh =>
          match nodes.find? (fun n => n.hash == rh) with
          | some r => .ok (some r, nodes)
          | none =>
            if !nodes.isEmpty then
              match rebuildMerkleTree sha leaves with
              | .error _ => .error BitQuillErrorM.stateError
              | .ok rn => .ok rn
            else if !leaves.isEmpty then
              match rebuildMerkleTree sha leaves with
              | .error _ => .error BitQuillErrorM.stateError
              | .ok rn => .ok rn
            else .ok (none, nodes)
        | none =>
          if !leaves.isEmpty then
            match rebuildMerkleTree sha leaves with
            | .error _ => .error BitQuillErrorM.stateError
            | .ok rn => .ok rn
          else .ok (none, nodes)) :
            Except BitQuillErrorM (Option MerkleNodeM × List MerkleNodeM)) with
      | .error e => .error e
      | .ok rootNodes =>
        -- Load VDF ticks (resource cap); latest tick from the max key.
        match ((match file.vdfTicks with
          | some ts =>
            if DIFFICULTY_WINDOW_SIZE * 2 < ts.length then
              .error .resourceExhaustedError
            else
              .ok (ts.foldl (fun acc t => insertTick acc t.sequenceNumber t) [])
          | none => .ok []) :
            Except BitQuillErrorM (List (Nat × VDFClockTickM))) with
        | .error e => .error e
        | .ok historicalTicks =>
          let latestTick := match maxTickKey historicalTicks with
            | some k => lookupTick historicalTicks k
            | none => none
          -- VDF modulus: decode non-empty bytes, else regenerate.
          match ((match file.modulus with
            | some bytes =>
              if !bytes.isEmpty then .ok (fromBytesBE bytes) else newModulus
            | none => newModulus) : Except BitQuillErrorM Nat) with
          | .error e => .error e
          | .ok modulus =>
            .ok { root := rootNodes.1
                  leaves := leaves
                  nodes := rootNodes.2
                  editIntervals := editIntervalsOf leaves
                  currentState := currentState
                  modulus := modulus
                  latestTick := latestTick
                  historicalTicks := historicalTicks
                  tickTimestamps := d.tickTimestamps
                  currentIterations :=
                    min (max file.currentIterations MIN_VDF_ITERATIONS)
                      MAX_VDF_ITERATIONS
                  lastLeafTick :=
                    (leaves.getLast?.map (fun l2 => l2.vdfTickReference)).getD 0
                  pendingChanges := false
                  dirty := false }

/-! ### Claim-level predicates and the verifier's commitment
recomputation -/

/-- Leaf chain predicate of claim C3: starting from the expected
previous hash `prevHash` and leaf number `num`, every leaf links to its
predecessor by hash and is numbered consecutively. -/
def chainedFrom (prevHash : List Nat) (num : Nat) : List MerkleLeafM → Bool
  | [] => true
  | leaf :: rest =>
    (leaf.prevLeafHash == prevHash) && (leaf.leafNumber == num) &&
      chainedFrom leaf.hash (num + 1) rest

/-- The leaf list is well-chained: prev hashes chain from the genesis
leaf hash and leaf numbers equal index + 1. -/
def wellChained (sha : List Nat → List Nat) (leaves : List MerkleLeafM) : Bool :=
  chainedFrom (genesisLeafHash sha) 1 leaves

/-- The verifier's commitment recomputation for one leaf given its bound
tick (verification.rs lines 133-151): previous commitment looked up by
leaf number, then SHA-256 over state_hash ‖ tick.output_y ‖
tick reference (be64) ‖ previous commitment (omitted for leaf 1). -/
def recomputeCommitment (sha : List Nat → List Nat)
    (leaves : List MerkleLeafM) (tick : VDFClockTickM) (leaf : MerkleLeafM) :
    List Nat :=
  let prevCommitment := if 1 < leaf.leafNumber then
      (leaves.find? (fun l2 => l2.leafNumber == leaf.leafNumber - 1)).map
        (fun l2 => l2.commitment)
    else none
  leafCommitment sha leaf.documentState.stateHash tick leaf.vdfTickReference
    prevCommitment

/-- Document states reachable in an editing session: created by
`MerkleDocument::new`, then any interleaving of clock-tick processing,
paragraph edits, difficulty adjustments and successful `create_leaf`
calls.  Ticks arrive with sequence numbers not yet in the map (the clock
emits strictly increasing sequence numbers and the channel preserves
order), and the difficulty adjustment only rewrites
`current_iterations`. -/
inductive Reachable (sha : List Nat → List Nat) : MerkleDocumentM → Prop
  | new (modulus : Nat) (now : Int) : Reachable sha (newDocument sha modulus now)
  | tick (d : MerkleDocumentM) (t : VDFClockTickM) (h : Reachable sha d)
      (hfresh : lookupTick d.historicalTicks t.sequenceNumber = none) :
      Reachable sha (processTick d t)
  | paragraph (d : MerkleDocumentM) (content : List Nat) (now : Int)
      (d' : MerkleDocumentM) (h : Reachable sha d)
      (hok : recordParagraph sha d content now = .ok d') : Reachable sha d'
  | adjust (d : MerkleDocumentM) (n : Nat) (h : Reachable sha d) :
      Reachable sha { d with currentIterations := n }
  | leaf (d : MerkleDocumentM) (tickNumber : Nat) (now : Int)
      (d' : MerkleDocumentM) (h : Reachable sha d)
      (hok : createLeaf sha d tickNumber now = .ok d') : Reachable sha d'

/-! ### Root computation as worded in the spec (for claim C6) -/

/-- One collapse as worded in the spec: pair consecutive hashes
left-to-right, parent hash = SHA-256(left ‖ right), odd trailing element
promoted unchanged. -/
def specCollapse (sha : List Nat → List Nat) :
    List (List Nat) → List (List Nat)
  | a :: b :: rest => calculateNodeHash sha a b :: specCollapse sha rest
  | l => l

/-- Fuelled fixpoint of `specCollapse`. -/
def specRootAux (sha : List Nat → List Nat) :
    Nat → List (List Nat) → List Nat
  | _, [] => []
  | _, [h] => h
  | 0, _ :: _ :: _ => []
  | fuel + 1, hs => specRootAux sha fuel (specCollapse sha hs)

/-- Root hash as worded in the spec sentence of claim C6: the fixpoint
of pairwise SHA-256 of child hashes with odd promotion, starting from
the leaf hashes. -/
def specRoot (sha : List Nat → List Nat) (hs : List (List Nat)) : List Nat :=
  specRootAux sha hs.length hs

/-! ### Leaf-chain and commitment lemmas (claims C3 and C5) -/

/-- Hash of the last leaf of `L`, or `p` when `L` is empty. -/
def lastHashOr (p : List Nat) (L : List MerkleLeafM) : List Nat :=
  match L.getLast? with
  | none => p
  | some leaf => leaf.hash

/-- Combined invariant of reachable documents: the leaf list is
well-chained, and every leaf's bound tick is retained with a stored
commitment that the verifier's recomputation reproduces. -/
def docInv (sha : List Nat → List Nat) (d : MerkleDocumentM) : Prop :=
  wellChained sha d.leaves = true ∧
  ∀ leaf ∈ d.leaves, ∃ tick,
    lookupTick d.historicalTicks leaf.vdfTickReference = some tick ∧
    recomputeCommitment sha d.leaves tick leaf = leaf.commitment

/-! ### Concrete fixtures used by witnesses and counterexamples -/

/-- Trivial stand-in hash function used to instantiate the abstract
SHA-256 parameter in concrete evaluations; the structural theorems hold
for every hash function. -/
def shaZero : List Nat → List Nat := fun _ => [0]

/-- A concrete genesis tick. -/
def wTick0 : VDFClockTickM :=
  { outputY := [1]
    proof := { y := [1], pi := [1], l := [3], r := [1] }
    sequenceNumber := 0
    prevOutputHash := [48, 48]
    systemTime := 0
    iterations := 100000 }

/-- Fresh document that has processed `wTick0`. -/
def wDoc1 : MerkleDocumentM := processTick (newDocument shaZero 15 0) wTick0

/-- Document after one successful `create_leaf` bound to tick 0. -/
def wDoc2 : MerkleDocumentM :=
  match createLeaf shaZero wDoc1 0 0 with
  | .ok d => d
  | .error _ => wDoc1

/-- An ill-chained leaf: its number is 2 (not 1) and its previous-leaf
hash is not the genesis leaf hash. -/
def badLeaf : MerkleLeafM :=
  { documentState := { content := [], systemTime := 0, stateHash := [0] }
    vdfTickReference := 0
    prevLeafHash := [7]
    timestamp := 0
    hash := [9]
    leafNumber := 2
    commitment := [0] }

/-- A parseable file whose leaf list violates the chain invariant. -/
def badFile : MerkleQuillFileM :=
  { leaves := some [badLeaf]
    nodes := none
    rootHash := none
    vdfTicks := none
    modulus := some [15]
    currentIterations := 250000 }

/-! ### Integrity verifier (src/merkle/verification.rs)

`verify_merkle_integrity` is embedded as a pipeline of phases over a
running state `(valid, details)`.  Each `VerificationDetail` is kept
with a tag standing for its `format!` description string.  The
randomized modulus strength check (`utils::verify_modulus_strength`,
Miller-Rabin with fresh randomness) is a boolean parameter, and the
forensic `analyze_writing_patterns` output (floating-point statistics)
is passed in as the list of anomalous leaf numbers plus the average
interval; both only feed details, the latter never the valid flag. -/

inductive VerificationLevelM where
  | basic
  | standard
  | thorough
  | forensic
deriving DecidableEq, BEq, Repr

/-- Rank per derived `PartialOrd` (declaration order Basic < Standard <
Thorough < Forensic). -/
def levelRank : VerificationLevelM → Nat
  | .basic => 0
  | .standard => 1
  | .thorough => 2
  | .forensic => 3

/-- Tags standing for the `format!` description strings of the
verification details, in source order of their push sites. -/
inductive DTag where
  | emptyDoc
  | modChecking
  | modFailed
  | modPassed
  | chainBroken
  | chainLinkOk
  | hashMismatch
  | hashOk
  | hashFailed
  | contentLenient
  | contentMismatch
  | contentOk
  | commitMismatch
  | commitOk
  | tickDataMissing
  | rootMismatch
  | rootOk
  | treeInconsistent
  | gapHeader
  | gapLarge
  | tickHeader
  | genesisHashMismatch
  | genesisHashOk
  | genesisProofFailed
  | genesisProofOk
  | genesisMissingFatal
  | genesisMissingNote
  | lowDifficulty
  | insecureParams
  | chainNote
  | chainVerified
  | timeJump
  | tooFast
  | timeBackwards
  | proofNote
  | diffChange
  | diffAudit
  | anomalyNote
  | anomalySummary
  | noAnomalies
deriving DecidableEq, Repr

structure DetailM where
  tag : DTag
  valid : Bool
  blockNumber : Option Nat
  tickNumber : Option Nat
deriving DecidableEq, Repr

structure ResultM where
  valid : Bool
  details : List DetailM
  level : VerificationLevelM
deriving DecidableEq, Repr

/-- Running verifier state: the `valid` flag and the details pushed so
far. -/
abbrev VState := Bool × List DetailM

/-- Push a detail without touching the valid flag. -/
def dpush (s : VState) (d : DetailM) : VState := (s.1, s.2 ++ [d])

/-- Push a detail and set `result.valid = false`. -/
def dfatal (s : VState) (d : DetailM) : VState := (false, s.2 ++ [d])

/-- Modulus strength phase (verification.rs lines 31-50). -/
def modulusPhase (modStrength : Nat → Bool) (modulus : Nat) (s : VState) :
    VState :=
  let s := dpush s ⟨.modChecking, true, none, none⟩
  if !(modStrength modulus) then dfatal s ⟨.modFailed, false, none, none⟩
  else dpush s ⟨.modPassed, true, none, none⟩

/-- ASCII whitespace byte (`char::is_whitespace` restricted to the byte
values occurring in the developments here). -/
def isWhitespaceByte (c : Nat) : Bool :=
  c == 32 || c == 9 || c == 10 || c == 13

/-- `content.trim().is_empty()`. -/
def trimEmpty (content : List Nat) : Bool := content.all isWhitespaceByte

/-- One leaf of the chain/hash/content loop (verification.rs lines
57-129); the second component carries `expected_prev_hash`. -/
def leafCheck (sha : List Nat → List Nat) (st : VState × List Nat)
    (leaf : MerkleLeafM) : VState × List Nat :=
  let s := st.1
  let expectedPrev := st.2
  let s := if expectedPrev != leaf.prevLeafHash then
      dfatal s ⟨.chainBroken, false, some leaf.leafNumber, none⟩
    else dpush s ⟨.chainLinkOk, true, some leaf.leafNumber, none⟩
  let s := match calculateLeafHash sha leaf with
    | .ok calculated =>
      if calculated != leaf.hash then
        dfatal s ⟨.hashMismatch, false, some leaf.leafNumber, none⟩
      else dpush s ⟨.hashOk, true, some leaf.leafNumber, none⟩
    | .error _ => dfatal s ⟨.hashFailed, false, some leaf.leafNumber, none⟩
  let contentHash := hexEncode (sha leaf.documentState.content)
  let s := if contentHash != leaf.documentState.stateHash then
      (if trimEmpty leaf.documentState.content ||
          (leaf.leafNumber == 1 && leaf.documentState.content.isEmpty) then
        dpush s ⟨.contentLenient, true, some leaf.leafNumber, none⟩
      else dfatal s ⟨.contentMismatch, false, some leaf.leafNumber, none⟩)
    else dpush s ⟨.contentOk, true, some leaf.leafNumber, none⟩
  (s, leaf.hash)

/-- Leaf chain phase: fold `leafCheck` from the genesis leaf hash. -/
def leafChainPhase (sha : List Nat → List Nat) (leaves : List MerkleLeafM)
    (s : VState) : VState :=
  (leaves.foldl (leafCheck sha) (s, genesisLeafHash sha)).1

/-- One leaf of the commitment binding loop (verification.rs lines
132-180). -/
def commitmentCheck (sha : List Nat → List Nat) (leaves : List MerkleLeafM)
    (ticks : List (Nat × VDFClockTickM)) (s : VState) (leaf : MerkleLeafM) :
    VState :=
  match lookupTick ticks leaf.vdfTickReference with
  | some tick =>
    if recomputeCommitment sha leaves tick leaf != leaf.commitment then
      dfatal s ⟨.commitMismatch, false, some leaf.leafNumber,
        some leaf.vdfTickReference⟩
    else dpush s ⟨.commitOk, true, some leaf.leafNumber,
      some leaf.vdfTickReference⟩
  | none =>
    dpush s ⟨.tickDataMissing, true, some leaf.leafNumber,
      some leaf.vdfTickReference⟩

def commitmentPhase (sha : List Nat → List Nat) (leaves : List MerkleLeafM)
    (ticks : List (Nat × VDFClockTickM)) (s : VState) : VState :=
  leaves.foldl (commitmentCheck sha leaves ticks) s

/-- Tree comparison phase (verification.rs lines 182-223): rebuild from
the leaf list into a fresh document and compare root hashes.  The
`MerkleDocument::new()` failure path (thread/resource setup) is not
representable here; a rebuild error leaves the fresh document's root
`None` as in the source. -/
def treePhase (sha : List Nat → List Nat) (root : Option MerkleNodeM)
    (leaves : List MerkleLeafM) (s : VState) : VState :=
  let rebuiltRoot := match rebuildMerkleTree sha leaves with
    | .ok rn => rn.1
    | .error _ => none
  match root, rebuiltRoot with
  | some current, some rebuilt =>
    if current.hash != rebuilt.hash then
      dfatal s ⟨.rootMismatch, false, none, none⟩
    else dpush s ⟨.rootOk, true, none, none⟩
  | some _, none => dfatal s ⟨.treeInconsistent, false, none, none⟩
  | none, some _ => dfatal s ⟨.treeInconsistent, false, none, none⟩
  | none, none => s

/-- Leaf gap phase (verification.rs lines 227-249): warning-only. -/
def leafGapPhase (leaves : List MerkleLeafM) (s : VState) : VState :=
  if 1 < leaves.length then
    let s := dpush s ⟨.gapHeader, true, none, none⟩
    (leaves.zip leaves.tail).foldl (fun s pc =>
      if 500 < pc.2.vdfTickReference - pc.1.vdfTickReference then
        dpush s ⟨.gapLarge, true, some pc.2.leafNumber, none⟩
      else s) s
  else s

/-- Genesis tick check (verification.rs lines 262-336).  The proof is
checked only when the stored `prev_output_hash` matched; `vdf.verify`
is total in this model (main.rs `VDF::verify` never errors), so the
`Err` branch of the source does not arise. -/
def genesisCheckPhase (sha : List Nat → List Nat) (N : Nat)
    (ticks : List (Nat × VDFClockTickM)) (level : VerificationLevelM)
    (s : VState) : VState :=
  match lookupTick ticks 0 with
  | some firstTick =>
    let initialInputHash := sha (strBytes ("VDF Clock Genesis"))
    let expected := hexEncode (sha initialInputHash)
    if firstTick.prevOutputHash != expected then
      dfatal s ⟨.genesisHashMismatch, false, none, some 0⟩
    else
      let s := dpush s ⟨.genesisHashOk, true, none, some 0⟩
      if !(vdfVerify sha N initialInputHash firstTick.proof) then
        dfatal s ⟨.genesisProofFailed, false, none, some 0⟩
      else dpush s ⟨.genesisProofOk, true, none, some 0⟩
  | none =>
    if levelRank VerificationLevelM.standard ≤ levelRank level then
      dfatal s ⟨.genesisMissingFatal, false, none, some 0⟩
    else dpush s ⟨.genesisMissingNote, true, none, some 0⟩

/-- Insertion into a sorted list (helper for `Vec::sort` on `u64`). -/
def insertSortedNat (n : Nat) : List Nat → List Nat
  | [] => [n]
  | m :: rest => if n ≤ m then n :: m :: rest else m :: insertSortedNat n rest

/-- `Vec::sort` on tick numbers. -/
def sortNats (l : List Nat) : List Nat := l.foldr insertSortedNat []

/-- Key tick sampling (verification.rs lines 340-367): first tick,
ticks referenced by leaves, up to five most recent ticks; sorted.  The
`HashMap` key iteration order is irrelevant since the collected keys
are sorted before use. -/
def buildKeyTicks (ticks : List (Nat × VDFClockTickM))
    (leaves : List MerkleLeafM) : List Nat :=
  let tickNumbers := sortNats (ticks.map (fun p => p.1))
  let keyTicks : List Nat := match tickNumbers with
    | [] => []
    | t :: _ => [t]
  let keyTicks := leaves.foldl (fun acc leaf =>
    if acc.contains leaf.vdfTickReference then acc
    else acc ++ [leaf.vdfTickReference]) keyTicks
  let numRecent := min 5 tickNumbers.length
  let keyTicks := (List.range numRecent).foldl (fun acc i =>
    let idx := tickNumbers.length - 1 - i
    if idx < tickNumbers.length ∧ !(acc.contains (tickNumbers.getD idx 0))
    then acc ++ [tickNumbers.getD idx 0] else acc) keyTicks
  sortNats keyTicks

/-- `curr.duration_since(prev)`: the elapsed nanoseconds, or `none`
when time went backwards. -/
def durationSince (curr prev : Int) : Option Nat :=
  if prev ≤ curr then some (curr - prev).toNat else none

/-- The conditions of the key-tick loop that set `result.valid = false`
(verification.rs lines 370-510): low difficulty, short challenge prime,
time jump beyond an hour, or an impossibly fast computation.  The
chain-hash comparison and the proof verification of the same loop do
not appear here: they only push `valid: true` notes. -/
def keyTickFatal (ticks : List (Nat × VDFClockTickM)) (tickNum : Nat) :
    Bool :=
  match lookupTick ticks tickNum with
  | none => false
  | some tick =>
    decide (tick.iterations < ABSOLUTE_MIN_ITERATIONS) ||
    decide (bitLen (fromBytesBE tick.proof.l) < 120) ||
    (if 0 < tickNum then
      match lookupTick ticks (tickNum - 1) with
      | none => false
      | some prevTick =>
        match durationSince tick.systemTime prevTick.systemTime with
        | some diffNs =>
          decide (3600 < diffNs / 1000000000) ||
          (decide (MIN_VDF_ITERATIONS * 10 < tick.iterations) &&
            decide (2 * diffNs < tick.iterations))
        | none => true
    else false)

/-- One key tick of the sampled-tick loop (verification.rs lines
370-510).  `time_diff.as_secs() > 3600` is `diffNs / 1e9 > 3600`, and
`time_diff.as_secs_f64() < (iterations / 1e9) * 0.5` is
`2 * diffNs < iterations`. -/
def stepKeyTick (sha : List Nat → List Nat) (N : Nat)
    (ticks : List (Nat × VDFClockTickM)) (s : VState) (tickNum : Nat) :
    VState :=
  match lookupTick ticks tickNum with
  | none => s
  | some tick =>
    let s := if tick.iterations < ABSOLUTE_MIN_ITERATIONS then
        dfatal s ⟨.lowDifficulty, false, none, some tickNum⟩
      else s
    let s := if bitLen (fromBytesBE tick.proof.l) < 120 then
        dfatal s ⟨.insecureParams, false, none, some tickNum⟩
      else s
    let s := if bitLen (fromBytesBE tick.proof.l) < 120 then
        dfatal s ⟨.insecureParams, false, none, some tickNum⟩
      else s
    if 0 < tickNum then
      match lookupTick ticks (tickNum - 1) with
      | none => s
      | some prevTick =>
        let s := if hexEncode (sha prevTick.outputY) != tick.prevOutputHash
          then dpush s ⟨.chainNote, true, none, some tickNum⟩
          else dpush s ⟨.chainVerified, true, none, some tickNum⟩
        let s := match durationSince tick.systemTime prevTick.systemTime with
          | some diffNs =>
            let s := if 3600 < diffNs / 1000000000 then
                dfatal s ⟨.timeJump, false, none, some tickNum⟩
              else s
            if MIN_VDF_ITERATIONS * 10 < tick.iterations then
              (if 2 * diffNs < tick.iterations then
                dfatal s ⟨.tooFast, false, none, some tickNum⟩
              else s)
            else s
          | none => dfatal s ⟨.timeBackwards, false, none, some tickNum⟩
        if !(vdfVerify sha N prevTick.outputY tick.proof) then
          dpush s ⟨.proofNote, true, none, some tickNum⟩
        else s
    else s

def keyTicksPhase (sha : List Nat → List Nat) (N : Nat)
    (ticks : List (Nat × VDFClockTickM)) (keyTicks : List Nat) (s : VState) :
    VState :=
  keyTicks.foldl (stepKeyTick sha N ticks) s

/-- `u64::saturating_mul(4)`. -/
def satMul4 (n : Nat) : Nat := min (4 * n) (2 ^ 64 - 1)

/-- One step of the difficulty-change loop (verification.rs lines
512-533); the second component carries the previous retained tick. -/
def diffStep (ticks : List (Nat × VDFClockTickM))
    (st : VState × Option VDFClockTickM) (tickNum : Nat) :
    VState × Option VDFClockTickM :=
  match lookupTick ticks tickNum with
  | none => st
  | some tick =>
    let s := match st.2 with
      | none => st.1
      | some prev =>
        if satMul4 prev.iterations < tick.iterations ||
            satMul4 tick.iterations < prev.iterations then
          dfatal st.1 ⟨.diffChange, false, none, some tickNum⟩
        else st.1
    (s, some tick)

def diffChangePhase (ticks : List (Nat × VDFClockTickM))
    (keyTicks : List Nat) (s : VState) : VState :=
  (keyTicks.foldl (diffStep ticks) (s, none)).1

/-- `key_ticks.windows(3).step_by(2)`. -/
def win3s2 : List Nat → List (Nat × Nat × Nat)
  | a :: b :: c :: rest => (a, b, c) :: win3s2 (c :: rest)
  | _ => []

/-- One window of the difficulty-audit loop (verification.rs lines
539-573): warning-only (`valid: true`).  f64 arithmetic is modelled
exactly over ℚ: `as_secs_f64` is `diffNs / 1e9`, the ratio clamp is
`max 1/4 (min 4 ·)`, division by a zero duration gives f64 infinity and
hence clamps to 4, and `as u64` takes the floor. -/
def auditStep (ticks : List (Nat × VDFClockTickM)) (s : VState)
    (w : Nat × Nat × Nat) : VState :=
  if w.2.1 = w.1 + 1 ∧ w.2.2 = w.2.1 + 1 then
    match lookupTick ticks w.1, lookupTick ticks w.2.1,
        lookupTick ticks w.2.2 with
    | some a, some b, some c =>
      match durationSince b.systemTime a.systemTime with
      | some timeAbNs =>
        let ratio : ℚ := if timeAbNs = 0 then 4 else
          min (max ((1000000000 : ℚ) / (timeAbNs : ℚ)) (1 / 4)) 4
        let expected : Nat := Int.toNat ⌊(b.iterations : ℚ) * ratio⌋
        let lower : Nat := Int.toNat ⌊(expected : ℚ) * (7 / 10)⌋
        let upper : Nat := Int.toNat ⌊(expected : ℚ) * (13 / 10)⌋
        if c.iterations < lower ∨ upper < c.iterations then
          dpush s ⟨.diffAudit, true, none, some c.sequenceNumber⟩
        else s
      | none => s
    | _, _, _ => s
  else s

def auditPhase (ticks : List (Nat × VDFClockTickM)) (keyTicks : List Nat)
    (s : VState) : VState :=
  if 3 ≤ keyTicks.length then (win3s2 keyTicks).foldl (auditStep ticks) s
  else s

/-- Whole tick section (verification.rs lines 254-576), entered when
the level is above Basic and ticks are retained. -/
def tickPhase (sha : List Nat → List Nat) (N : Nat)
    (ticks : List (Nat × VDFClockTickM)) (leaves : List MerkleLeafM)
    (level : VerificationLevelM) (s : VState) : VState :=
  let s := dpush s ⟨.tickHeader, true, none, none⟩
  let s := genesisCheckPhase sha N ticks level s
  let keyTicks := buildKeyTicks ticks leaves
  let s := keyTicksPhase sha N ticks keyTicks s
  let s := diffChangePhase ticks keyTicks s
  auditPhase ticks keyTicks s

/-- Forensic writing-pattern phase (verification.rs lines 579-608):
advisory only. -/
def patternPhase (anomalies : List Nat) (s : VState) : VState :=
  if !anomalies.isEmpty then
    let s := anomalies.foldl (fun s n =>
      dpush s ⟨.anomalyNote, true, some n, none⟩) s
    dpush s ⟨.anomalySummary, true, none, none⟩
  else dpush s ⟨.noAnomalies, true, none, none⟩

/-- Model of `verify_merkle_integrity` (verification.rs lines 14-612). -/
def verifyMerkleIntegrity (sha : List Nat → List Nat)
    (modStrength : Nat → Bool) (anomalies : List Nat)
    (d : MerkleDocumentM) (level : VerificationLevelM) : ResultM :=
  if d.leaves.isEmpty then
    { valid := true
      details := [⟨.emptyDoc, true, none, none⟩]
      level := level }
  else
    let s : VState := (true, [])
    let s := modulusPhase modStrength d.modulus s
    let s := leafChainPhase sha d.leaves s
    let s := commitmentPhase sha d.leaves d.historicalTicks s
    let s := treePhase sha d.root d.leaves s
    let s := leafGapPhase d.leaves s
    let s := if level != VerificationLevelM.basic &&
        !d.historicalTicks.isEmpty then
        tickPhase sha d.modulus d.historicalTicks d.leaves level s
      else s
    let s := if level == VerificationLevelM.forensic then
        patternPhase anomalies s
      else s
    { valid := s.1
      details := s.2
      level := level }

/-! ### Concrete documents exercising the verifier (claims C2 and C8) -/

/-- A Wesolowski proof with 128-bit challenge that `VDF::verify` accepts
on input hashing to 0 (both sides reduce to 0 mod 15). -/
def cxProof0 : VDFProofM :=
  { y := [0]
    pi := [0]
    l := natToBytesBE (2 ^ 127)
    r := [1] }

/-- The same proof with `y = 1`, which `VDF::verify` rejects on input
hashing to 0. -/
def cxProofBad : VDFProofM :=
  { y := [1]
    pi := [0]
    l := natToBytesBE (2 ^ 127)
    r := [1] }

/-- A leaf that passes every leaf-level check under `shaZero` (every
hash recomputation yields hex "00" = [48, 48]). -/
def cxLeaf : MerkleLeafM :=
  { documentState :=
      { content := []
        systemTime := 0
        stateHash := [48, 48] }
    vdfTickReference := 1
    prevLeafHash := [48, 48]
    timestamp := 0
    hash := [48, 48]
    leafNumber := 1
    commitment := [48, 48] }

/-- Root node matching `rebuildMerkleTree shaZero [cxLeaf]`. -/
def cxRoot : MerkleNodeM :=
  { hash := [48, 48]
    height := 1
    leftChildHash := some [48, 48]
    rightChildHash := none }

/-- Genesis tick whose stored prev hash and proof pass the genesis
checks under `shaZero` with modulus 15. -/
def c2Tick0 : VDFClockTickM :=
  { outputY := [1]
    proof := cxProof0
    sequenceNumber := 0
    prevOutputHash := [48, 48]
    systemTime := 0
    iterations := 100000 }

/-- Tick 1 with a broken chain link (`prev_output_hash` is hex "ff", not
the hash of tick 0's output) and a failing proof, one second later. -/
def c2Tick1 : VDFClockTickM :=
  { outputY := [2]
    proof := cxProofBad
    sequenceNumber := 1
    prevOutputHash := [102, 102]
    systemTime := 1000000000
    iterations := 100000 }

/-- Document whose only forgery is in tick 1's chain link and proof. -/
def c2Doc : MerkleDocumentM :=
  { root := some cxRoot
    leaves := [cxLeaf]
    nodes := [cxRoot]
    editIntervals := []
    currentState :=
      { content := []
        systemTime := 0
        stateHash := [48, 48] }
    modulus := 15
    latestTick := none
    historicalTicks := [(0, c2Tick0), (1, c2Tick1)]
    tickTimestamps := []
    currentIterations := 100000
    lastLeafTick := 1
    pendingChanges := false
    dirty := false }

/-- Genesis tick claiming one billion iterations. -/
def c8Tick0 : VDFClockTickM :=
  { outputY := [1]
    proof := cxProof0
    sequenceNumber := 0
    prevOutputHash := [48, 48]
    systemTime := 0
    iterations := 1000000000 }

/-- Tick 1 claiming one billion iterations computed in 0.9 seconds:
faster than iterations/1e9 = 1 second, but not faster than the halved
threshold 0.5 seconds the code enforces. -/
def c8Tick1 : VDFClockTickM :=
  { outputY := [2]
    proof := cxProof0
    sequenceNumber := 1
    prevOutputHash := [48, 48]
    systemTime := 900000000
    iterations := 1000000000 }

/-- Document with the 0.9-second billion-iteration tick pair. -/
def c8Doc : MerkleDocumentM :=
  { c2Doc with historicalTicks := [(0, c8Tick0), (1, c8Tick1)] }

/-- Tick 1 dated before tick 0 (time going backwards). -/
def c8wTick1 : VDFClockTickM :=
  { outputY := [2]
    proof := cxProof0
    sequenceNumber := 1
    prevOutputHash := [48, 48]
    systemTime := -5
    iterations := 1000000000 }

/-- Document whose tick 1 is dated before tick 0. -/
def c8wDoc : MerkleDocumentM :=
  { c2Doc with historicalTicks := [(0, c8Tick0), (1, c8wTick1)] }

/-! ## Theorems -/

theorem modPowAux_eq (m : Nat) :
    ∀ fuel b e, e ≤ fuel → modPowAux m fuel b e = b ^ e % m := by
  intro fuel
  induction fuel with
  | zero =>
    intro b e he
    interval_cases e
    simp [modPowAux]
  | succ fuel ih =>
    intro b e he
    by_cases h0 : e = 0
    · subst h0; simp [modPowAux]
    · have hdiv : e / 2 ≤ fuel := by omega
      have step := ih (b * b % m) (e / 2) hdiv
      have hbb : (b * b % m) ^ (e / 2) % m = (b * b) ^ (e / 2) % m := by
        rw [← Nat.pow_mod]
      have hb2 : (b * b) ^ (e / 2) = b ^ (2 * (e / 2)) := by
        rw [pow_mul, pow_two]
      by_cases hpar : e % 2 = 1
      · have he2 : 2 * (e / 2) + 1 = e := by omega
        simp only [modPowAux, h0, if_false, hpar, if_true]
        rw [step, hbb, hb2, Nat.mod_mul_mod, ← pow_succ, he2]
      · have he2 : 2 * (e / 2) = e := by omega
        simp only [modPowAux, h0, if_false, hpar, if_false]
        rw [step, hbb, hb2, he2]

theorem modPow_eq (b e m : Nat) : modPow b e m = b ^ e % m :=
  modPowAux_eq m e b e (Nat.le_refl e)

theorem fromBytesBE_append_one (bs : List Nat) (b : Nat) :
    fromBytesBE (bs ++ [b]) = 256 * fromBytesBE bs + b := by
  simp [fromBytesBE, List.foldl_append]

theorem fromBytesBE_natToBytesAux :
    ∀ fuel n, n ≤ fuel → fromBytesBE (natToBytesAux fuel n) = n := by
  intro fuel
  induction fuel with
  | zero =>
    intro n hn
    interval_cases n
    simp [natToBytesAux, fromBytesBE]
  | succ fuel ih =>
    intro n hn
    by_cases h0 : n = 0
    · subst h0; simp [natToBytesAux, fromBytesBE]
    · have hdiv : n / 256 ≤ fuel := by
        have := Nat.div_le_self n 256
        have h2 : n / 256 < n := Nat.div_lt_self (by omega) (by omega)
        omega
      simp only [natToBytesAux, h0, if_false]
      rw [fromBytesBE_append_one, ih (n / 256) hdiv]
      omega

/-- Byte encoding round-trip: decoding the minimal big-endian encoding
recovers the value. -/
theorem fromBytesBE_natToBytesBE (n : Nat) : fromBytesBE (natToBytesBE n) = n := by
  by_cases h0 : n = 0
  · subst h0; simp [natToBytesBE, fromBytesBE]
  · simp only [natToBytesBE, h0, if_false]
    exact fromBytesBE_natToBytesAux n n (Nat.le_refl n)

theorem computeVdfOutput_eq (N t : Nat) :
    ∀ x, x < N → computeVdfOutput N x t = x ^ 2 ^ t % N := by
  induction t with
  | zero =>
    intro x hx
    simp [computeVdfOutput, Nat.mod_eq_of_lt hx]
  | succ t ih =>
    intro x hx
    have hN : 0 < N := Nat.lt_of_le_of_lt (Nat.zero_le x) hx
    have h1 : computeVdfOutput N x (t + 1) = computeVdfOutput N (x * x % N) t := by
      simp [computeVdfOutput, Function.iterate_succ_apply]
    rw [h1, ih (x * x % N) (Nat.mod_lt _ hN)]
    rw [← Nat.pow_mod]
    have h2 : (x * x) ^ 2 ^ t = x ^ 2 ^ (t + 1) := by
      rw [← pow_two, ← pow_mul, ← pow_succ']
    rw [h2]

theorem wesStep_div (x N l : Nat) (hl : 0 < l) (D b : Nat) (hb : b ≤ 1)
    (s : Nat × Nat) (h1 : s.1 = x ^ (D / l) % N) (h2 : s.2 = D % l) :
    (wesStep x N l b s).1 = x ^ ((2 * D + b) / l) % N ∧
    (wesStep x N l b s).2 = (2 * D + b) % l := by
  obtain ⟨s1, s2⟩ := s
  simp only at h1 h2
  subst h1
  subst h2
  have hr : D % l < l := Nat.mod_lt _ hl
  have hDeq : l * (D / l) + D % l = D := Nat.div_add_mod D l
  have hp : (x ^ (D / l) % N) * (x ^ (D / l) % N) % N = x ^ (2 * (D / l)) % N := by
    rw [← Nat.mul_mod, ← pow_add]
    congr 2
    omega
  by_cases hc : l ≤ 2 * (D % l) + b
  · have hmul : l * (2 * (D / l) + 1) = 2 * (l * (D / l)) + l := by ring
    have key : (2 * (D % l) + b - l) + l * (2 * (D / l) + 1) = 2 * D + b := by omega
    have hlt : 2 * (D % l) + b - l < l := by omega
    have hdm : (2 * D + b) / l = 2 * (D / l) + 1 ∧
        (2 * D + b) % l = 2 * (D % l) + b - l :=
      (Nat.div_mod_unique hl).2 ⟨key, hlt⟩
    constructor
    · simp only [wesStep, if_pos hc]
      rw [hp, Nat.mod_mul_mod, ← pow_succ, hdm.1]
    · simp only [wesStep, if_pos hc]
      rw [hdm.2]
  · have hmul : l * (2 * (D / l)) = 2 * (l * (D / l)) := by ring
    have key : (2 * (D % l) + b) + l * (2 * (D / l)) = 2 * D + b := by omega
    have hlt : 2 * (D % l) + b < l := by omega
    have hdm : (2 * D + b) / l = 2 * (D / l) ∧
        (2 * D + b) % l = 2 * (D % l) + b :=
      (Nat.div_mod_unique hl).2 ⟨key, hlt⟩
    constructor
    · simp only [wesStep, if_neg hc]
      rw [hp, hdm.1]
    · simp only [wesStep, if_neg hc]
      rw [hdm.2]

theorem wesPair_eq (x l N : Nat) (hl : 0 < l) (hN : 1 < N) (t : Nat) :
    (wesPair x t l N).1 = x ^ (2 ^ t / l) % N ∧
    (wesPair x t l N).2 = 2 ^ t % l := by
  induction t with
  | zero =>
    have h := wesStep_div x N l hl 0 1 (by omega) (1, 0)
      (by simp [Nat.mod_eq_of_lt hN]) (by simp)
    simpa [wesPair] using h
  | succ t ih =>
    have hstep : wesPair x (t + 1) l N = wesStep x N l 0 (wesPair x t l N) := by
      simp [wesPair, Function.iterate_succ_apply']
    have h := wesStep_div x N l hl (2 ^ t) 0 (by omega) (wesPair x t l N) ih.1 ih.2
    rw [hstep]
    have h2 : 2 * 2 ^ t + 0 = 2 ^ (t + 1) := by
      rw [Nat.add_zero, ← pow_succ']
    rw [h2] at h
    exact h

/-- Modular arithmetic core of the Wesolowski identity:
`(x^q mod N)^l * x^r mod N = x^(q*l + r) mod N`. -/
theorem pow_mod_identity (x q r l N : Nat) :
    (x ^ q % N) ^ l % N * (x ^ r % N) % N = x ^ (q * l + r) % N := by
  rw [← Nat.pow_mod, ← pow_mul, ← Nat.mul_mod, ← pow_add]

/-- C1: for every seed and iteration count, with `x` the hash-to-group
value of the seed (any `x < N`), `l` the challenge prime (any `l > 0`):
the long-division loop returns `pi = x^(2^t / l) mod N`, the squaring
loop returns `y = x^(2^t) mod N`, `r = 2^t mod l`, and the proof
`(y, pi, l, r)` satisfies the Wesolowski identity `y = pi^l * x^r mod N`,
so verifying the freshly generated proof against its own input
returns true. -/
theorem c1_wesolowski_prove_verifies (sha : List Nat → List Nat)
    (input : List Nat) (t l N : Nat) (hl : 0 < l) (hN : 1 < N)
    (hx : fromBytesBE (sha input) < N) :
    computeWesolowskiProof (fromBytesBE (sha input)) t l N =
      fromBytesBE (sha input) ^ (2 ^ t / l) % N ∧
    computeVdfOutput N (fromBytesBE (sha input)) t =
      fromBytesBE (sha input) ^ 2 ^ t % N ∧
    vdfVerify sha N input
      { y := natToBytesBE (computeVdfOutput N (fromBytesBE (sha input)) t),
        pi := natToBytesBE (computeWesolowskiProof (fromBytesBE (sha input)) t l N),
        l := natToBytesBE l,
        r := natToBytesBE (computeRemainder t l) } = true := by
  have hpi : computeWesolowskiProof (fromBytesBE (sha input)) t l N =
      fromBytesBE (sha input) ^ (2 ^ t / l) % N :=
    (wesPair_eq (fromBytesBE (sha input)) l N hl hN t).1
  have hy := computeVdfOutput_eq N t (fromBytesBE (sha input)) hx
  refine ⟨hpi, hy, ?_⟩
  simp only [vdfVerify, fromBytesBE_natToBytesBE, computeRemainder]
  rw [beq_iff_eq, modPow_eq, modPow_eq, hy, hpi, pow_mod_identity]
  congr 1
  have hqr : 2 ^ t / l * l + 2 ^ t % l = 2 ^ t := Nat.div_add_mod' (2 ^ t) l
  rw [hqr]

/-- Witness for C1 at `sha = fun _ => [2]`, `input = []`, `t = 3`,
`l = 5`, `N = 7`. -/
theorem c1_wesolowski_prove_verifies_witness :
    ((0 < 5 ∧ 1 < 7) ∧ fromBytesBE ((fun (_ : List Nat) => [2]) []) < 7) ∧
    (computeWesolowskiProof (fromBytesBE ((fun (_ : List Nat) => [2]) [])) 3 5 7 =
      fromBytesBE ((fun (_ : List Nat) => [2]) []) ^ (2 ^ 3 / 5) % 7 ∧
    computeVdfOutput 7 (fromBytesBE ((fun (_ : List Nat) => [2]) [])) 3 =
      fromBytesBE ((fun (_ : List Nat) => [2]) []) ^ 2 ^ 3 % 7 ∧
    vdfVerify (fun _ => [2]) 7 []
      { y := natToBytesBE (computeVdfOutput 7 (fromBytesBE ((fun (_ : List Nat) => [2]) [])) 3),
        pi := natToBytesBE (computeWesolowskiProof (fromBytesBE ((fun (_ : List Nat) => [2]) [])) 3 5 7),
        l := natToBytesBE 5,
        r := natToBytesBE (computeRemainder 3 5) } = true) :=
  ⟨⟨⟨by decide, by decide⟩, by decide⟩,
    c1_wesolowski_prove_verifies (fun _ => [2]) [] 3 5 7 (by decide) (by decide) (by decide)⟩

/-- C7: evaluation of the verifier at a proof whose `r` component is not
`2^t mod l` for any `t`: main.rs `VDF::verify` still returns true (the
code never compares `r` with a recomputation of `2^t mod l`; the wasm
`verify_proof_internal` computes the comparison but only logs it). -/
theorem c7_verify_accepts_wrong_r :
    vdfVerify (fun _ => [2]) 15 [1] { y := [0], pi := [0], l := [3], r := [7] } = true ∧
    2 ^ 5 % 3 ≠ 7 := by
  constructor
  · decide
  · decide

theorem lastHashOr_cons (p : List Nat) (leaf : MerkleLeafM)
    (L : List MerkleLeafM) :
    lastHashOr p (leaf :: L) = lastHashOr leaf.hash L := by
  cases L with
  | nil => rfl
  | cons b bs =>
    simp only [lastHashOr, List.getLast?_cons_cons]
    cases h : (b :: bs).getLast? with
    | none => simp_all
    | some x => simp [h]

theorem expectedPrevLeafHash_eq (sha : List Nat → List Nat)
    (L : List MerkleLeafM) :
    expectedPrevLeafHash sha L = lastHashOr (genesisLeafHash sha) L := by
  cases h : L.getLast? <;> simp [expectedPrevLeafHash, lastHashOr, h]

theorem chainedFrom_cons (p : List Nat) (num : Nat) (leaf : MerkleLeafM)
    (rest : List MerkleLeafM) :
    chainedFrom p num (leaf :: rest) = true ↔
      (leaf.prevLeafHash = p ∧ leaf.leafNumber = num ∧
        chainedFrom leaf.hash (num + 1) rest = true) := by
  simp [chainedFrom, Bool.and_eq_true, beq_iff_eq, and_assoc]

theorem chainedFrom_append (p : List Nat) (num : Nat) (L : List MerkleLeafM)
    (x : MerkleLeafM) :
    chainedFrom p num (L ++ [x]) = true ↔
      (chainedFrom p num L = true ∧ x.prevLeafHash = lastHashOr p L ∧
       x.leafNumber = num + L.length) := by
  induction L generalizing p num with
  | nil =>
    rw [List.nil_append, chainedFrom_cons]
    simp only [chainedFrom, lastHashOr, List.length_nil, List.getLast?_nil,
      Nat.add_zero, and_true, true_and]
  | cons leaf rest ih =>
    constructor
    · intro h
      rw [List.cons_append, chainedFrom_cons] at h
      obtain ⟨hp, hn, hc⟩ := h
      obtain ⟨hc', hx1, hx2⟩ := (ih leaf.hash (num + 1)).1 hc
      refine ⟨?_, ?_, ?_⟩
      · rw [chainedFrom_cons]
        exact ⟨hp, hn, hc'⟩
      · rw [lastHashOr_cons]
        exact hx1
      · simp only [List.length_cons]
        omega
    · rintro ⟨hch, hx1, hx2⟩
      rw [chainedFrom_cons] at hch
      obtain ⟨hp, hn, hc'⟩ := hch
      rw [List.cons_append, chainedFrom_cons]
      refine ⟨hp, hn, (ih leaf.hash (num + 1)).2 ⟨hc', ?_, ?_⟩⟩
      · rw [lastHashOr_cons] at hx1
        exact hx1
      · simp only [List.length_cons] at hx2
        omega

theorem chainedFrom_get (p : List Nat) (num : Nat) (L : List MerkleLeafM)
    (h : chainedFrom p num L = true) :
    ∀ i (hi : i < L.length), (L.get ⟨i, hi⟩).leafNumber = num + i := by
  induction L generalizing p num with
  | nil => intro i hi; simp at hi
  | cons leaf rest ih =>
    rw [chainedFrom_cons] at h
    obtain ⟨hp, hn, hc⟩ := h
    intro i hi
    cases i with
    | zero => simpa using hn
    | succ i =>
      have hrec := ih leaf.hash (num + 1) hc i (by simpa using hi)
      simp only [List.get_cons_succ]
      rw [hrec]
      omega

theorem chainedFrom_find (p : List Nat) (num : Nat) (L : List MerkleLeafM)
    (h : chainedFrom p num L = true) (k : Nat) (h1 : num ≤ k)
    (h2 : k < num + L.length) :
    L.find? (fun x => x.leafNumber == k) = L.get? (k - num) := by
  induction L generalizing p num with
  | nil => simp at h2; omega
  | cons leaf rest ih =>
    rw [chainedFrom_cons] at h
    obtain ⟨hp, hn, hc⟩ := h
    rw [List.find?_cons]
    by_cases hk : k = num
    · subst hk
      have hbeq : (leaf.leafNumber == k) = true := by simp [hn]
      rw [hbeq]
      simp
    · have hbeq : (leaf.leafNumber == k) = false := by
        simp only [beq_eq_false_iff_ne, ne_eq, hn]
        omega
      rw [hbeq]
      simp only [cond_false]
      rw [ih leaf.hash (num + 1) hc (by omega)
        (by simp only [List.length_cons] at h2; omega)]
      have hidx : k - num = (k - (num + 1)) + 1 := by omega
      rw [hidx]
      simp

theorem find?_filter_ne (l : List (Nat × VDFClockTickM)) (n k : Nat)
    (hk : k ≠ n) :
    (l.filter (fun p => !(p.1 == n))).find? (fun p => p.1 == k) =
      l.find? (fun p => p.1 == k) := by
  induction l with
  | nil => rfl
  | cons a rest ih =>
    by_cases ha : a.1 = n
    · have h1 : (a.1 == n) = true := by simp [ha]
      have h2 : (a.1 == k) = false := by
        simp only [beq_eq_false_iff_ne, ne_eq, ha]
        omega
      simp [List.filter_cons, h1, h2, ih, List.find?_cons]
    · have h1 : (a.1 == n) = false := by simp [ha]
      by_cases hka : a.1 = k
      · have h2 : (a.1 == k) = true := by simp [hka]
        simp [List.filter_cons, h1, h2, List.find?_cons]
      · have h2 : (a.1 == k) = false := by simp [hka]
        simp [List.filter_cons, h1, h2, ih, List.find?_cons]

theorem lookupTick_insert (ticks : List (Nat × VDFClockTickM)) (n : Nat)
    (t : VDFClockTickM) (k : Nat) :
    lookupTick (insertTick ticks n t) k =
      if k = n then some t else lookupTick ticks k := by
  by_cases hk : k = n
  · subst hk
    simp [insertTick, lookupTick, List.find?_cons]
  · rw [if_neg hk]
    have h1 : ((n : Nat) == k) = false := by
      simp only [beq_eq_false_iff_ne, ne_eq]
      omega
    simp only [insertTick, lookupTick, List.find?_cons, h1, cond_false]
    rw [find?_filter_ne _ _ _ hk]

theorem recomputeCommitment_append (sha : List Nat → List Nat)
    (L : List MerkleLeafM) (x : MerkleLeafM) (tick : VDFClockTickM)
    (leaf : MerkleLeafM)
    (hfind : 1 < leaf.leafNumber →
      (L.find? (fun l2 => l2.leafNumber == leaf.leafNumber - 1)).isSome = true) :
    recomputeCommitment sha (L ++ [x]) tick leaf =
      recomputeCommitment sha L tick leaf := by
  by_cases h1 : 1 < leaf.leafNumber
  · obtain ⟨v, hv⟩ := Option.isSome_iff_exists.mp (hfind h1)
    simp only [recomputeCommitment, if_pos h1, List.find?_append, hv]
    rfl
  · simp only [recomputeCommitment, if_neg h1]

theorem find?_prev_append (sha : List Nat → List Nat) (L : List MerkleLeafM)
    (hwc : chainedFrom (genesisLeafHash sha) 1 L = true) (x : MerkleLeafM) :
    (if 1 < L.length + 1 then
        (((L ++ [x]).find? (fun l2 => l2.leafNumber == L.length + 1 - 1)).map
          (fun l2 => l2.commitment))
      else none) = L.getLast?.map (fun leaf => leaf.commitment) := by
  cases L with
  | nil => simp
  | cons a as =>
    rw [if_pos (by simp)]
    have hfind := chainedFrom_find _ _ _ hwc ((a :: as).length) (by simp)
      (by simp)
    have hk : (a :: as).length + 1 - 1 = (a :: as).length := by omega
    rw [hk, List.find?_append, hfind]
    obtain ⟨v, hv⟩ : ∃ v, (a :: as).getLast? = some v := by
      cases hg : (a :: as).getLast? with
      | none => simp at hg
      | some v => exact ⟨v, rfl⟩
    have hget : (a :: as).get? ((a :: as).length - 1) = some v := by
      rw [List.get?_eq_getElem?, ← List.getLast?_eq_getElem?]
      exact hv
    rw [hget, hv]
    simp [Option.orElse]

theorem reachable_docInv (sha : List Nat → List Nat) (d : MerkleDocumentM)
    (h : Reachable sha d) : docInv sha d := by
  induction h with
  | new modulus now =>
    refine ⟨rfl, ?_⟩
    intro leaf hmem
    simp [newDocument] at hmem
  | tick d t hr hfresh ih =>
    obtain ⟨hwc, hcom⟩ := ih
    refine ⟨hwc, ?_⟩
    intro leaf hmem
    obtain ⟨tick0, hlk0, hrc⟩ := hcom leaf hmem
    refine ⟨tick0, ?_, hrc⟩
    have hticks : (processTick d t).historicalTicks =
        insertTick d.historicalTicks t.sequenceNumber t := rfl
    rw [hticks, lookupTick_insert]
    have hne : leaf.vdfTickReference ≠ t.sequenceNumber := by
      intro hEq
      rw [hEq, hfresh] at hlk0
      exact absurd hlk0 (by simp)
    rw [if_neg hne]
    exact hlk0
  | paragraph d content now d' hr hok ih =>
    obtain ⟨hwc, hcom⟩ := ih
    have hsame : d'.leaves = d.leaves ∧ d'.historicalTicks = d.historicalTicks := by
      simp only [recordParagraph] at hok
      split at hok
      · exact absurd hok (by simp)
      · rw [Except.ok.injEq] at hok
        subst hok
        exact ⟨rfl, rfl⟩
    refine ⟨by rw [hsame.1]; exact hwc, ?_⟩
    intro leaf hmem
    rw [hsame.1] at hmem ⊢
    rw [hsame.2]
    exact hcom leaf hmem
  | adjust d n hr ih => exact ih
  | leaf d tickNumber now d' hr hok ih =>
    obtain ⟨hwc, hcom⟩ := ih
    simp only [createLeaf] at hok
    split at hok
    · exact absurd hok (by simp)
    · split at hok
      · exact absurd hok (by simp)
      · next tick htick =>
        split at hok
        · exact absurd hok (by simp)
        · next hsh hcalc =>
          split at hok
          · exact absurd hok (by simp)
          · next rn hrn =>
            rw [Except.ok.injEq] at hok
            subst hok
            constructor
            · -- well-chainedness of the appended list
              refine (chainedFrom_append _ _ _ _).2 ⟨hwc, ?_, ?_⟩
              · exact expectedPrevLeafHash_eq sha d.leaves
              · simp only [List.length_cons]
                omega
            · -- commitments of the appended list
              intro leaf hmem
              rw [List.mem_append] at hmem
              rcases hmem with hold | hnew
              · -- a pre-existing leaf
                obtain ⟨tick0, hlk0, hrc0⟩ := hcom leaf hold
                refine ⟨tick0, hlk0, ?_⟩
                rw [recomputeCommitment_append]
                · exact hrc0
                · intro hgt
                  obtain ⟨i, hget⟩ := List.get_of_mem hold
                  have hnum := chainedFrom_get _ _ _ hwc i.1 i.2
                  rw [hget] at hnum
                  have hfind := chainedFrom_find _ _ _ hwc
                    (leaf.leafNumber - 1) (by omega)
                    (by have := i.2; omega)
                  rw [hfind]
                  have hlt : leaf.leafNumber - 1 - 1 < d.leaves.length := by
                    have := i.2; omega
                  simp [List.get?_eq_getElem?, List.getElem?_eq_getElem hlt]
              · -- the freshly appended leaf
                simp only [List.mem_singleton] at hnew
                subst hnew
                refine ⟨tick, htick, ?_⟩
                simp only [recomputeCommitment]
                rw [find?_prev_append sha d.leaves hwc]

/-! ### Claim C3 -/

/-- C3 amended: at every document state reachable from a new document
by tick processing, paragraph edits, difficulty adjustments and
successful `create_leaf` calls, the leaf list is well-chained: every
leaf's `prev_leaf_hash` is the previous leaf's hash (the hex-encoded
SHA-256 of "MerkleQuill Genesis Leaf" for the first leaf), and every
leaf's `leaf_number` is its index plus one.  `load_from_file` performs
no such validation and does not re-establish the invariant (see the
counterexample). -/
theorem c3_reachable_well_chained (sha : List Nat → List Nat)
    (d : MerkleDocumentM) (h : Reachable sha d) :
    wellChained sha d.leaves = true :=
  (reachable_docInv sha d h).1

/-- Witness for the amended C3 on a concrete two-step reachable
document. -/
theorem c3_reachable_well_chained_witness :
    wellChained shaZero wDoc2.leaves = true :=
  c3_reachable_well_chained shaZero wDoc2
    (.leaf wDoc1 0 0 wDoc2
      (.tick (newDocument shaZero 15 0) wTick0 (.new 15 0) rfl) rfl)

/-- C3 counterexample: `load_from_file` succeeds on a file whose single
leaf has leaf_number 2 and an arbitrary prev_leaf_hash, yielding a
reachable-by-load document state whose leaf list is not well-chained:
the claimed invariant does not hold after load_from_file. -/
theorem c3_load_accepts_unchained :
    (loadFromFile shaZero (newDocument shaZero 15 0) badFile
        (.ok 15) 0).toOption.map
      (fun d' => wellChained shaZero d'.leaves) = some false := by
  decide

/-! ### Claim C5 -/

/-- C5: in every reachable document state, every leaf whose referenced
tick is still retained in the tick map has a stored commitment equal to
the verifier's recomputation — SHA-256 over state_hash ‖ tick.output_y ‖
be64(tick reference) ‖ previous leaf's commitment (omitted for the
first leaf). -/
theorem c5_commitment_roundtrip (sha : List Nat → List Nat)
    (d : MerkleDocumentM) (h : Reachable sha d) (leaf : MerkleLeafM)
    (hmem : leaf ∈ d.leaves) (tick : VDFClockTickM)
    (hlk : lookupTick d.historicalTicks leaf.vdfTickReference = some tick) :
    recomputeCommitment sha d.leaves tick leaf = leaf.commitment := by
  obtain ⟨tick0, hlk0, hrc⟩ := (reachable_docInv sha d h).2 leaf hmem
  have heq : tick0 = tick := by
    have := hlk0.symm.trans hlk
    exact Option.some.inj this
  rw [← heq]
  exact hrc

/-- Witness for C5 on the concrete reachable document `wDoc2`. -/
theorem c5_commitment_roundtrip_witness :
    recomputeCommitment shaZero wDoc2.leaves wTick0
        (wDoc2.leaves.headD default) =
      (wDoc2.leaves.headD default).commitment :=
  c5_commitment_roundtrip shaZero wDoc2
    (.leaf wDoc1 0 0 wDoc2
      (.tick (newDocument shaZero 15 0) wTick0 (.new 15 0) rfl) rfl)
    (wDoc2.leaves.headD default) (by decide) wTick0 (by decide)

/-! ### Claim C4 -/

/-- C4: `calculate_leaf_hash` is a pure function of the leaf's stored
fields: for timestamps at or after the epoch it equals SHA-256 over
state_hash ‖ be64(tick reference) ‖ prev_leaf_hash ‖ commitment ‖
be64(whole seconds since epoch) ‖ be64(leaf number); it fails when the
timestamp precedes the epoch; and every leaf appended by a successful
`create_leaf` stores a hash equal to `calculate_leaf_hash` applied to
that stored leaf (the hashed timestamp is exactly the stored one). -/
theorem c4_leaf_hash_pure (sha : List Nat → List Nat) (leaf : MerkleLeafM)
    (d : MerkleDocumentM) (tickNumber : Nat) (now : Int)
    (d' : MerkleDocumentM) :
    (0 ≤ leaf.timestamp →
      calculateLeafHash sha leaf = .ok (hexEncode (sha
        (leaf.documentState.stateHash ++ be64 leaf.vdfTickReference ++
         leaf.prevLeafHash ++ leaf.commitment ++
         be64 (leaf.timestamp.toNat / 1000000000) ++ be64 leaf.leafNumber)))) ∧
    (leaf.timestamp < 0 → calculateLeafHash sha leaf = .error .hashError) ∧
    (createLeaf sha d tickNumber now = .ok d' →
      ∀ lf, d'.leaves.getLast? = some lf →
        calculateLeafHash sha lf = .ok lf.hash) := by
  refine ⟨?_, ?_, ?_⟩
  · intro h
    simp [calculateLeafHash, timestampSecs, not_lt.mpr h]
  · intro h
    simp [calculateLeafHash, timestampSecs, h]
  · intro hok lf hlast
    simp only [createLeaf] at hok
    split at hok
    · exact absurd hok (by simp)
    · split at hok
      · exact absurd hok (by simp)
      · split at hok
        · exact absurd hok (by simp)
        · next h hcalc =>
          split at hok
          · exact absurd hok (by simp)
          · next rn hrn =>
            rw [Except.ok.injEq] at hok
            subst hok
            simp only [List.getLast?_concat, Option.some.injEq] at hlast
            subst hlast
            rw [← hcalc]
            rfl

/-- Witness for C4 at concrete leaves and a concrete successful
`create_leaf` call. -/
theorem c4_leaf_hash_pure_witness :
    ((0 : Int) ≤ (5000000000 : Int) ∧ (-1 : Int) < 0 ∧
      createLeaf shaZero wDoc1 0 0 = .ok wDoc2) ∧
    (calculateLeafHash shaZero
        { documentState := { content := [], systemTime := 0, stateHash := [0] }
          vdfTickReference := 0
          prevLeafHash := [0]
          timestamp := 5000000000
          hash := []
          leafNumber := 1
          commitment := [0] } =
      .ok (hexEncode (shaZero ([0] ++ be64 0 ++ [0] ++ [0] ++ be64 5 ++ be64 1))) ∧
     calculateLeafHash shaZero
        { documentState := { content := [], systemTime := 0, stateHash := [0] }
          vdfTickReference := 0
          prevLeafHash := [0]
          timestamp := -1
          hash := []
          leafNumber := 1
          commitment := [0] } = .error .hashError ∧
     ∀ lf, wDoc2.leaves.getLast? = some lf →
        calculateLeafHash shaZero lf = .ok lf.hash) := by
  refine ⟨⟨by decide, by decide, by rfl⟩, ?_, ?_, ?_⟩
  · exact (c4_leaf_hash_pure shaZero _ wDoc1 0 0 wDoc2).1 (by decide)
  · exact (c4_leaf_hash_pure shaZero _ wDoc1 0 0 wDoc2).2.1 (by decide)
  · exact (c4_leaf_hash_pure shaZero
      { documentState := { content := [], systemTime := 0, stateHash := [0] }
        vdfTickReference := 0
        prevLeafHash := [0]
        timestamp := 0
        hash := []
        leafNumber := 1
        commitment := [0] } wDoc1 0 0 wDoc2).2.2 (by rfl)

/-! ### Claim C9 -/

/-- C9 counterexample: when proof computation fails, the clock loop
still emits a tick, and the tick carries the in-band substitute values
(y = pi = SHA-256(input ‖ "fallback"), l = 65537, r = 1) rather than
surfacing only an error. -/
theorem c9_failed_proof_still_emits_tick :
    (clockEmitTick shaZero
        (fun _ _ => (.error .stateError : Except BitQuillErrorM VDFProofM))
        [1] 250000 0 0).proof = fallbackProof shaZero [1] ∧
    (fallbackProof shaZero [1]).l = natToBytesBE 65537 ∧
    (fallbackProof shaZero [1]).r = natToBytesBE 1 ∧
    (fallbackProof shaZero [1]).y = shaZero ([1] ++ strBytes ("fallback")) :=
  ⟨rfl, rfl, rfl, rfl⟩

/-- C9 amended: whenever the proof computation fails, the clock emits a
tick whose proof is exactly the fallback substitute proof (not an
error). -/
theorem c9_fallback_tick_on_error (sha : List Nat → List Nat)
    (computeProof : List Nat → Nat → Except BitQuillErrorM VDFProofM)
    (input : List Nat) (iterations seq : Nat) (now : Int)
    (e : BitQuillErrorM) (h : computeProof input iterations = .error e) :
    clockEmitTick sha computeProof input iterations seq now =
      { outputY := (fallbackProof sha input).y
        proof := fallbackProof sha input
        sequenceNumber := seq
        prevOutputHash := hexEncode (sha input)
        systemTime := now
        iterations := iterations } := by
  simp [clockEmitTick, h]

/-- Witness for the amended C9 at a concrete always-failing proof
computation. -/
theorem c9_fallback_tick_on_error_witness :
    ((fun (_ : List Nat) (_ : Nat) =>
        (.error .stateError : Except BitQuillErrorM VDFProofM)) [1] 250000 =
      .error .stateError) ∧
    clockEmitTick shaZero
        (fun _ _ => (.error .stateError : Except BitQuillErrorM VDFProofM))
        [1] 250000 0 0 =
      { outputY := (fallbackProof shaZero [1]).y
        proof := fallbackProof shaZero [1]
        sequenceNumber := 0
        prevOutputHash := hexEncode (shaZero [1])
        systemTime := 0
        iterations := 250000 } :=
  ⟨rfl, c9_fallback_tick_on_error shaZero _ [1] 250000 0 0 .stateError rfl⟩

/-! ### Claim C6: tree rebuild against the spec's pairwise fixpoint -/

theorem collapseLevel_length (sha : List Nat → List Nat) (height : Nat) :
    ∀ L : List MerkleTreeElementM,
      (collapseLevel sha height L).1.length = (L.length + 1) / 2
  | [] => by simp [collapseLevel]
  | [a] => by simp [collapseLevel]
  | a :: b :: rest => by
    have ih := collapseLevel_length sha height rest
    simp only [collapseLevel, List.length_cons, ih]
    omega

theorem specCollapse_length (sha : List Nat → List Nat) :
    ∀ hs : List (List Nat), (specCollapse sha hs).length = (hs.length + 1) / 2
  | [] => by simp [specCollapse]
  | [a] => by simp [specCollapse]
  | a :: b :: rest => by
    have ih := specCollapse_length sha rest
    simp only [specCollapse, List.length_cons, ih]
    omega

theorem collapseLevel_hashes (sha : List Nat → List Nat) (height : Nat) :
    ∀ L : List MerkleTreeElementM,
      (collapseLevel sha height L).1.map getElementHash =
        specCollapse sha (L.map getElementHash)
  | [] => by simp [collapseLevel, specCollapse]
  | [a] => by simp [collapseLevel, specCollapse]
  | a :: b :: rest => by
    have ih := collapseLevel_hashes sha height rest
    simp [collapseLevel, specCollapse, ih, getElementHash]

theorem specRootAux_nil (sha : List Nat → List Nat) (f : Nat) :
    specRootAux sha f [] = [] := by
  cases f <;> rfl

theorem specRootAux_one (sha : List Nat → List Nat) (f : Nat) (h : List Nat) :
    specRootAux sha f [h] = h := by
  cases f <;> rfl

theorem rebuildLoop_ok (sha : List Nat → List Nat) :
    ∀ (fuel height : Nat) (nodes : List MerkleNodeM)
      (L L2 : List MerkleTreeElementM) (nodes2 : List MerkleNodeM),
      rebuildLoop sha fuel height nodes L = .ok (L2, nodes2) →
      L2.length ≤ 1 ∧ (0 < L.length → 0 < L2.length) ∧
      (L2.map getElementHash).headD [] =
        specRootAux sha fuel (L.map getElementHash) := by
  intro fuel
  induction fuel with
  | zero =>
    intro height nodes L L2 nodes2 h
    rw [rebuildLoop] at h
    split at h
    · next hlen =>
      rw [Except.ok.injEq, Prod.mk.injEq] at h
      obtain ⟨h1, h2⟩ := h
      subst h1
      refine ⟨hlen, fun hp => hp, ?_⟩
      cases L with
      | nil => simp [specRootAux_nil]
      | cons x xs =>
        cases xs with
        | nil => simp [specRootAux_one]
        | cons y ys => simp at hlen
    · simp at h
  | succ fuel ih =>
    intro height nodes L L2 nodes2 h
    rw [rebuildLoop] at h
    split at h
    · next hlen =>
      rw [Except.ok.injEq, Prod.mk.injEq] at h
      obtain ⟨h1, h2⟩ := h
      subst h1
      refine ⟨hlen, fun hp => hp, ?_⟩
      cases L with
      | nil => simp [specRootAux_nil]
      | cons x xs =>
        cases xs with
        | nil => simp [specRootAux_one]
        | cons y ys => simp at hlen
    · next hlen =>
      simp only at h
      obtain ⟨h1, h2, h3⟩ := ih _ _ _ _ _ h
      have hclen := collapseLevel_length sha (height + 1) L
      refine ⟨h1, ?_, ?_⟩
      · intro _
        apply h2
        rw [hclen]
        omega
      · rw [h3, collapseLevel_hashes]
        cases L with
        | nil => simp at hlen
        | cons x xs =>
          cases xs with
          | nil => simp at hlen
          | cons y ys => rfl

theorem rebuildLoop_isOk (sha : List Nat → List Nat) :
    ∀ (fuel height : Nat) (nodes : List MerkleNodeM)
      (L : List MerkleTreeElementM),
      (rebuildLoop sha fuel height nodes L).isOk = true ↔
        L.length ≤ 2 ^ fuel := by
  intro fuel
  induction fuel with
  | zero =>
    intro height nodes L
    rw [rebuildLoop]
    split
    · next hlen =>
      simp [Except.isOk, Except.toBool, pow_zero, hlen]
    · next hlen =>
      simp [Except.isOk, Except.toBool, pow_zero]
      omega
  | succ fuel ih =>
    intro height nodes L
    rw [rebuildLoop]
    split
    · next hlen =>
      have h2 : 0 < 2 ^ (fuel + 1) := Nat.pos_pow_of_pos _ (by omega)
      simp [Except.isOk, Except.toBool]
      omega
    · next hlen =>
      simp only
      rw [ih, collapseLevel_length]
      have hp : 2 ^ (fuel + 1) = 2 * 2 ^ fuel := by
        rw [pow_succ]
        ring
      omega

theorem specRootAux_fuel (sha : List Nat → List Nat) :
    ∀ f g (hs : List (List Nat)), hs.length ≤ 2 ^ f → f ≤ g →
      specRootAux sha g hs = specRootAux sha f hs := by
  intro f
  induction f with
  | zero =>
    intro g hs hlen hfg
    cases hs with
    | nil => rw [specRootAux_nil, specRootAux_nil]
    | cons x xs =>
      cases xs with
      | nil => rw [specRootAux_one, specRootAux_one]
      | cons y ys => simp at hlen
  | succ f ih =>
    intro g hs hlen hfg
    cases hs with
    | nil => rw [specRootAux_nil, specRootAux_nil]
    | cons x xs =>
      cases xs with
      | nil => rw [specRootAux_one, specRootAux_one]
      | cons y ys =>
        cases g with
        | zero => omega
        | succ g =>
          show specRootAux sha g (specCollapse sha (x :: y :: ys)) =
            specRootAux sha f (specCollapse sha (x :: y :: ys))
          apply ih
          · rw [specCollapse_length]
            have hp : 2 ^ (f + 1) = 2 * 2 ^ f := by
              rw [pow_succ]
              ring
            simp only [List.length_cons] at hlen ⊢
            omega
          · omega

theorem specRoot_eq_aux101 (sha : List Nat → List Nat) (hs : List (List Nat))
    (hcap : hs.length ≤ 2 ^ 101) :
    specRootAux sha 101 hs = specRoot sha hs := by
  rw [specRoot]
  rcases Nat.le_total hs.length 101 with hle | hge
  · exact specRootAux_fuel sha hs.length 101 hs
      (le_of_lt (Nat.lt_two_pow _)) hle
  · exact (specRootAux_fuel sha 101 hs.length hs hcap hge).symm

/-- C6: `rebuild_merkle_tree` is a function of the leaf list whose root
hash is the spec's pairwise-SHA-256 fixpoint of the leaf hashes (odd
elements promoted unchanged); for a single leaf the root hash is that
leaf's hash (wrapped in a height-1 node); and the `height > 100` guard
makes the rebuild fail exactly on leaf lists longer than 2^101 (the
lists needing a tree of height above the cap). -/
theorem c6_rebuild_spec_root (sha : List Nat → List Nat)
    (leaves : List MerkleLeafM) :
    (∀ root nodes, rebuildMerkleTree sha leaves = .ok (some root, nodes) →
      root.hash = specRoot sha (leaves.map (fun lf => lf.hash))) ∧
    (∀ lf : MerkleLeafM, rebuildMerkleTree sha [lf] =
      .ok (some { hash := lf.hash, height := 1, leftChildHash := some lf.hash,
                  rightChildHash := none },
           [{ hash := lf.hash, height := 1, leftChildHash := some lf.hash,
              rightChildHash := none }])) ∧
    ((rebuildMerkleTree sha leaves).isOk = false ↔
      2 ^ 101 < leaves.length) := by
  have hmm : ∀ L : List MerkleLeafM,
      (L.map MerkleTreeElementM.leaf).map getElementHash =
        L.map (fun lf => lf.hash) := by
    intro L
    rw [List.map_map]
    rfl
  refine ⟨?_, ?_, ?_⟩
  · intro root nodes h
    rw [rebuildMerkleTree] at h
    split at h
    · simp at h
    · next hne =>
      split at h
      · simp at h
      · next level nodes0 hloop =>
        obtain ⟨hlen, hne2, hhead⟩ :=
          rebuildLoop_ok sha 101 0 [] _ level nodes0 hloop
        have hcap : leaves.length ≤ 2 ^ 101 := by
          have hok := (rebuildLoop_isOk sha 101 0 []
            (leaves.map MerkleTreeElementM.leaf)).mp (by rw [hloop]; rfl)
          simpa using hok
        rw [hmm] at hhead
        rw [specRoot_eq_aux101 sha _ (by simpa using hcap)] at hhead
        split at h
        · next n tail =>
          rw [Except.ok.injEq, Prod.mk.injEq] at h
          obtain ⟨h1, h2⟩ := h
          rw [Option.some.injEq] at h1
          cases tail with
          | cons t ts => simp only [List.length_cons] at hlen; omega
          | nil =>
            rw [← h1]
            simpa using hhead
        · next lf tail =>
          rw [Except.ok.injEq, Prod.mk.injEq] at h
          obtain ⟨h1, h2⟩ := h
          rw [Option.some.injEq] at h1
          cases tail with
          | cons t ts => simp only [List.length_cons] at hlen; omega
          | nil =>
            rw [← h1]
            simpa [getElementHash] using hhead
        · simp at h
  · intro lf
    rfl
  · rw [rebuildMerkleTree]
    split
    · next hempty =>
      rw [List.isEmpty_iff] at hempty
      subst hempty
      simp [Except.isOk, Except.toBool]
    · next hne =>
      have hiff := rebuildLoop_isOk sha 101 0 []
        (leaves.map MerkleTreeElementM.leaf)
      split
      · next e hloop =>
        rw [hloop] at hiff
        simp only [List.length_map] at hiff
        simp [Except.isOk, Except.toBool] at hiff ⊢
        omega
      · next level nodes0 hloop =>
        rw [hloop] at hiff
        simp only [List.length_map] at hiff
        have hle : leaves.length ≤ 2 ^ 101 := by
          apply hiff.mp
          rfl
        split
        · simp [Except.isOk, Except.toBool]
          omega
        · simp [Except.isOk, Except.toBool]
          omega
        · simp [Except.isOk, Except.toBool]
          omega

/-! ### Claim C10 -/

theorem clockIterations_foldl_ge (l : List (Option Nat)) :
    ∀ cur, ABSOLUTE_MIN_ITERATIONS ≤ cur →
      ABSOLUTE_MIN_ITERATIONS ≤ l.foldl (fun cur u => match u with
        | some n => min (max n MIN_VDF_ITERATIONS) MAX_VDF_ITERATIONS
        | none => cur) cur := by
  induction l with
  | nil => intro cur h; exact h
  | cons u rest ih =>
    intro cur h
    cases u with
    | none => exact ih cur h
    | some n =>
      apply ih
      have h1 : MIN_VDF_ITERATIONS ≤ max n MIN_VDF_ITERATIONS :=
        le_max_right _ _
      simp only [ABSOLUTE_MIN_ITERATIONS, MIN_VDF_ITERATIONS,
        MAX_VDF_ITERATIONS] at *
      omega

/-- C10: the clock thread starts at INITIAL_VDF_ITERATIONS (equal to
ABSOLUTE_MIN_ITERATIONS and below MIN_VDF_ITERATIONS) and clamps every
received difficulty update into [MIN_VDF_ITERATIONS,
MAX_VDF_ITERATIONS], so every tick it emits has iterations at least
ABSOLUTE_MIN_ITERATIONS and the Standard-level fatal check
`iterations < ABSOLUTE_MIN_ITERATIONS` cannot fire on such a tick. -/
theorem c10_clock_iterations_never_low (updates : List (Option Nat))
    (sha : List Nat → List Nat)
    (computeProof : List Nat → Nat → Except BitQuillErrorM VDFProofM)
    (input : List Nat) (seq : Nat) (now : Int) :
    INITIAL_VDF_ITERATIONS = ABSOLUTE_MIN_ITERATIONS ∧
    INITIAL_VDF_ITERATIONS < MIN_VDF_ITERATIONS ∧
    ABSOLUTE_MIN_ITERATIONS ≤ clockIterations updates ∧
    ¬((clockEmitTick sha computeProof input (clockIterations updates) seq
        now).iterations < ABSOLUTE_MIN_ITERATIONS) := by
  have hge : ABSOLUTE_MIN_ITERATIONS ≤ clockIterations updates :=
    clockIterations_foldl_ge updates INITIAL_VDF_ITERATIONS (by decide)
  have hit : (clockEmitTick sha computeProof input (clockIterations updates)
      seq now).iterations = clockIterations updates := rfl
  refine ⟨rfl, by decide, hge, ?_⟩
  rw [hit]
  omega

/-! ### Valid-flag lemmas for the verifier phases -/

theorem fst_ite_fatal (c : Prop) [Decidable c] (s : VState) (d : DetailM) :
    (if c then dfatal s d else s).1 = (s.1 && !(decide c)) := by
  split_ifs with h <;> simp [dfatal, h]

theorem fst_ite_fatal2 (c d : Prop) [Decidable c] [Decidable d]
    (s : VState) (dt : DetailM) :
    (if c then (if d then dfatal s dt else s) else s).1 =
      (s.1 && !(decide c && decide d)) := by
  split_ifs with h h2 <;> simp [dfatal, *]

theorem fst_ite_push (c : Prop) [Decidable c] (s : VState)
    (d1 d2 : DetailM) :
    (if c then dpush s d1 else dpush s d2).1 = s.1 := by
  split_ifs <;> rfl

theorem fst_ite_push_id (c : Prop) [Decidable c] (s : VState)
    (d : DetailM) :
    (if c then dpush s d else s).1 = s.1 := by
  split_ifs <;> rfl

theorem bool_aux1 (x a b : Bool) :
    ((((x && !a) && !b) && !b) = (x && !(a || b || false))) := by
  cases x <;> cases a <;> cases b <;> rfl

theorem bool_aux2 (x a b c d e : Bool) :
    ((((((x && !a) && !b) && !b) && !c) && !(d && e)) =
      (x && !(a || b || (c || d && e)))) := by
  cases x <;> cases a <;> cases b <;> cases c <;> cases d <;> cases e <;> rfl

theorem stepKeyTick_fst (sha : List Nat → List Nat) (N : Nat)
    (ticks : List (Nat × VDFClockTickM)) (s : VState) (n : Nat) :
    (stepKeyTick sha N ticks s n).1 = (s.1 && !(keyTickFatal ticks n)) := by
  cases h1 : lookupTick ticks n with
  | none => simp [stepKeyTick, keyTickFatal, h1]
  | some tick =>
    simp only [stepKeyTick, keyTickFatal, h1]
    by_cases h0 : 0 < n
    · simp only [if_pos h0]
      cases h2 : lookupTick ticks (n - 1) with
      | none =>
        simp only [h2, fst_ite_fatal]
        exact bool_aux1 s.1 _ _
      | some prevTick =>
        simp only [h2]
        cases h3 : durationSince tick.systemTime prevTick.systemTime with
        | none =>
          simp only [h3, fst_ite_push_id, fst_ite_push, fst_ite_fatal,
            dfatal]
          simp
        | some diffNs =>
          simp only [h3, fst_ite_push_id, fst_ite_fatal2, fst_ite_fatal,
            fst_ite_push]
          exact bool_aux2 s.1 _ _ _ _ _
    · simp only [if_neg h0, fst_ite_fatal]
      exact bool_aux1 s.1 _ _

theorem keyTicksPhase_fst (sha : List Nat → List Nat) (N : Nat)
    (ticks : List (Nat × VDFClockTickM)) (keyTicks : List Nat) :
    ∀ s : VState, (keyTicksPhase sha N ticks keyTicks s).1 =
      (s.1 && keyTicks.all (fun n => !(keyTickFatal ticks n))) := by
  induction keyTicks with
  | nil => intro s; simp [keyTicksPhase]
  | cons n rest ih =>
    intro s
    simp only [keyTicksPhase, List.foldl_cons, List.all_cons] at *
    rw [ih (stepKeyTick sha N ticks s n), stepKeyTick_fst]
    cases s.1 <;> cases keyTickFatal ticks n <;> simp

theorem diffStep_fst_false (ticks : List (Nat × VDFClockTickM))
    (st : VState × Option VDFClockTickM) (n : Nat) (h : st.1.1 = false) :
    (diffStep ticks st n).1.1 = false := by
  cases h1 : lookupTick ticks n with
  | none => simpa [diffStep, h1] using h
  | some tick =>
    cases h2 : st.2 with
    | none => simpa [diffStep, h1, h2] using h
    | some prev =>
      simp only [diffStep, h1, h2]
      split_ifs <;> simp [dfatal, h]

theorem diffFold_fst_false (ticks : List (Nat × VDFClockTickM))
    (keyTicks : List Nat) :
    ∀ st : VState × Option VDFClockTickM, st.1.1 = false →
      ((keyTicks.foldl (diffStep ticks) st).1.1 = false) := by
  induction keyTicks with
  | nil => intro st h; exact h
  | cons n rest ih =>
    intro st h
    exact ih (diffStep ticks st n) (diffStep_fst_false ticks st n h)

theorem auditStep_fst (ticks : List (Nat × VDFClockTickM)) (s : VState)
    (w : Nat × Nat × Nat) : (auditStep ticks s w).1 = s.1 := by
  rcases w with ⟨a, b, c⟩
  by_cases hw : b = a + 1 ∧ c = b + 1
  · simp only [auditStep, if_pos hw]
    rcases h1 : lookupTick ticks a with _ | ta <;>
      rcases h2 : lookupTick ticks b with _ | tb <;>
        rcases h3 : lookupTick ticks c with _ | tc <;>
          simp only [h1, h2, h3]
    rcases h4 : durationSince tb.systemTime ta.systemTime with _ | diffNs <;>
      simp only [h4]
    split_ifs <;> simp [dpush]
  · simp only [auditStep, if_neg hw]

theorem auditFold_fst (ticks : List (Nat × VDFClockTickM))
    (ws : List (Nat × Nat × Nat)) :
    ∀ s : VState, ((ws.foldl (auditStep ticks) s).1 = s.1) := by
  induction ws with
  | nil => intro s; rfl
  | cons w rest ih =>
    intro s
    simp only [List.foldl_cons]
    rw [ih (auditStep ticks s w), auditStep_fst]

theorem auditPhase_fst (ticks : List (Nat × VDFClockTickM))
    (keyTicks : List Nat) (s : VState) :
    (auditPhase ticks keyTicks s).1 = s.1 := by
  unfold auditPhase
  split_ifs
  · exact auditFold_fst ticks (win3s2 keyTicks) s
  · rfl

theorem anomalyFold_fst (anomalies : List Nat) :
    ∀ s : VState, ((anomalies.foldl (fun s n =>
      dpush s ⟨.anomalyNote, true, some n, none⟩) s).1 = s.1) := by
  induction anomalies with
  | nil => intro s; rfl
  | cons a rest ih =>
    intro s
    simp only [List.foldl_cons]
    rw [ih]
    rfl

theorem patternPhase_fst (anomalies : List Nat) (s : VState) :
    (patternPhase anomalies s).1 = s.1 := by
  unfold patternPhase
  split_ifs
  · simp only [dpush]
    exact anomalyFold_fst anomalies s
  · rfl

theorem tickPhase_fatal (sha : List Nat → List Nat) (N : Nat)
    (ticks : List (Nat × VDFClockTickM)) (leaves : List MerkleLeafM)
    (level : VerificationLevelM) (s : VState) (n : Nat)
    (hmem : n ∈ buildKeyTicks ticks leaves)
    (hfatal : keyTickFatal ticks n = true) :
    (tickPhase sha N ticks leaves level s).1 = false := by
  unfold tickPhase
  rw [auditPhase_fst]
  unfold diffChangePhase
  apply diffFold_fst_false
  show (keyTicksPhase sha N ticks (buildKeyTicks ticks leaves) _).1 = false
  rw [keyTicksPhase_fst]
  have hall : (buildKeyTicks ticks leaves).all
      (fun m => !(keyTickFatal ticks m)) = false := by
    cases hb : (buildKeyTicks ticks leaves).all
        (fun m => !(keyTickFatal ticks m)) with
    | false => rfl
    | true =>
      have := List.all_eq_true.mp hb n hmem
      simp [hfatal] at this
  rw [hall]
  simp

theorem verify_valid_eq (sha : List Nat → List Nat)
    (modStrength : Nat → Bool) (anomalies : List Nat)
    (d : MerkleDocumentM) (level : VerificationLevelM)
    (hne : d.leaves.isEmpty = false)
    (hcond : (level != VerificationLevelM.basic &&
      !d.historicalTicks.isEmpty) = true) :
    (verifyMerkleIntegrity sha modStrength anomalies d level).valid =
      (tickPhase sha d.modulus d.historicalTicks d.leaves level
        (leafGapPhase d.leaves (treePhase sha d.root d.leaves
          (commitmentPhase sha d.leaves d.historicalTicks
            (leafChainPhase sha d.leaves
              (modulusPhase modStrength d.modulus (true, []))))))).1 := by
  unfold verifyMerkleIntegrity
  rw [if_neg (by simp [hne])]
  simp only [hcond, if_true]
  cases hf : (level == VerificationLevelM.forensic) with
  | false => simp [hf]
  | true => simp [hf, patternPhase_fst]

theorem verify_fatal_keyTick (sha : List Nat → List Nat)
    (modStrength : Nat → Bool) (anomalies : List Nat)
    (d : MerkleDocumentM) (level : VerificationLevelM)
    (hleaves : d.leaves ≠ []) (hticks : d.historicalTicks ≠ [])
    (hlevel : level ≠ VerificationLevelM.basic)
    (n : Nat) (hmem : n ∈ buildKeyTicks d.historicalTicks d.leaves)
    (hfatal : keyTickFatal d.historicalTicks n = true) :
    (verifyMerkleIntegrity sha modStrength anomalies d level).valid =
      false := by
  have hne : d.leaves.isEmpty = false := by
    cases hl : d.leaves with
    | nil => exact absurd hl hleaves
    | cons a l => rfl
  have h1 : (level != VerificationLevelM.basic) = true := by
    cases level
    · exact absurd rfl hlevel
    · rfl
    · rfl
    · rfl
  have h2 : (!d.historicalTicks.isEmpty) = true := by
    cases ht : d.historicalTicks with
    | nil => exact absurd ht hticks
    | cons a l => rfl
  rw [verify_valid_eq sha modStrength anomalies d level hne
    (by rw [h1, h2]; rfl)]
  exact tickPhase_fatal sha d.modulus d.historicalTicks d.leaves level _
    n hmem hfatal

/-! ### Claims C2 and C8 -/

/-- C2 (amended): during the sampled-tick loop, the overall valid flag
of a step depends only on `keyTickFatal` — low difficulty, short
challenge prime, and the wall-clock conditions.  By definition
`keyTickFatal` contains neither the `prev_output_hash` comparison nor
`vdfVerify`: a chain-link mismatch or a failing tick proof is recorded
as a `valid: true` note and never falsifies the result. -/
theorem c2_tick_chain_and_proof_note_only (sha : List Nat → List Nat)
    (N : Nat) (ticks : List (Nat × VDFClockTickM)) (s : VState) (n : Nat) :
    (stepKeyTick sha N ticks s n).1 = (s.1 && !(keyTickFatal ticks n)) :=
  stepKeyTick_fst sha N ticks s n

/-- C2 counterexample: a document whose tick 1 has a broken chain link
(`prev_output_hash` does not match the hash of tick 0's output) and a
proof that `VDF::verify` rejects, while everything else is intact.
Standard verification still returns `valid = true`, pushing both
failures as `valid: true` notes. -/
theorem c2_chain_and_proof_failures_accepted :
    hexEncode (shaZero c2Tick0.outputY) ≠ c2Tick1.prevOutputHash ∧
    vdfVerify shaZero 15 c2Tick0.outputY c2Tick1.proof = false ∧
    (verifyMerkleIntegrity shaZero (fun _ => true) [] c2Doc
      VerificationLevelM.standard).valid = true ∧
    (⟨DTag.chainNote, true, none, some 1⟩ : DetailM) ∈
      (verifyMerkleIntegrity shaZero (fun _ => true) [] c2Doc
        VerificationLevelM.standard).details ∧
    (⟨DTag.proofNote, true, none, some 1⟩ : DetailM) ∈
      (verifyMerkleIntegrity shaZero (fun _ => true) [] c2Doc
        VerificationLevelM.standard).details := by
  refine ⟨by decide, by decide, by decide, by decide, by decide⟩

/-- C8 (amended): between consecutive sampled ticks both retained, time
going backwards is fatal, a gap of more than 3600 whole seconds is
fatal, and the speed check is fatal exactly when the tick claims more
than `10 * MIN_VDF_ITERATIONS` iterations in less than half of
`iterations / 1e9` seconds. -/
theorem c8_wall_clock_checks (sha : List Nat → List Nat)
    (modStrength : Nat → Bool) (anomalies : List Nat)
    (d : MerkleDocumentM) (level : VerificationLevelM) (n : Nat)
    (curr prev : VDFClockTickM)
    (hleaves : d.leaves ≠ []) (hticks : d.historicalTicks ≠ [])
    (hlevel : level ≠ VerificationLevelM.basic)
    (hmem : n ∈ buildKeyTicks d.historicalTicks d.leaves) (hn : 0 < n)
    (hcurr : lookupTick d.historicalTicks n = some curr)
    (hprev : lookupTick d.historicalTicks (n - 1) = some prev) :
    (curr.systemTime < prev.systemTime →
      (verifyMerkleIntegrity sha modStrength anomalies d level).valid =
        false) ∧
    (∀ diffNs : Nat,
      durationSince curr.systemTime prev.systemTime = some diffNs →
      3600 < diffNs / 1000000000 →
      (verifyMerkleIntegrity sha modStrength anomalies d level).valid =
        false) ∧
    (∀ diffNs : Nat,
      durationSince curr.systemTime prev.systemTime = some diffNs →
      MIN_VDF_ITERATIONS * 10 < curr.iterations →
      2 * diffNs < curr.iterations →
      (verifyMerkleIntegrity sha modStrength anomalies d level).valid =
        false) := by
  refine ⟨fun hback => ?_, fun diffNs hd hgap => ?_,
    fun diffNs hd hgt hfast => ?_⟩
  · apply verify_fatal_keyTick sha modStrength anomalies d level hleaves
      hticks hlevel n hmem
    have hnone : durationSince curr.systemTime prev.systemTime = none := by
      simp [durationSince, not_le.mpr hback]
    simp [keyTickFatal, hcurr, if_pos hn, hprev, hnone]
  · apply verify_fatal_keyTick sha modStrength anomalies d level hleaves
      hticks hlevel n hmem
    simp [keyTickFatal, hcurr, if_pos hn, hprev, hd, hgap]
  · apply verify_fatal_keyTick sha modStrength anomalies d level hleaves
      hticks hlevel n hmem
    simp [keyTickFatal, hcurr, if_pos hn, hprev, hd, hgt, hfast]

/-- Witness for C8 on a concrete document whose tick 1 is dated before
tick 0. -/
theorem c8_wall_clock_checks_witness :
    (c8wDoc.leaves ≠ [] ∧ c8wDoc.historicalTicks ≠ [] ∧
      VerificationLevelM.standard ≠ VerificationLevelM.basic ∧
      1 ∈ buildKeyTicks c8wDoc.historicalTicks c8wDoc.leaves ∧ 0 < 1 ∧
      lookupTick c8wDoc.historicalTicks 1 = some c8wTick1 ∧
      lookupTick c8wDoc.historicalTicks 0 = some c8Tick0 ∧
      c8wTick1.systemTime < c8Tick0.systemTime) ∧
    (verifyMerkleIntegrity shaZero (fun _ => true) [] c8wDoc
      VerificationLevelM.standard).valid = false :=
  ⟨⟨by decide, by decide, by decide, by decide, by decide, by decide,
    by decide, by decide⟩,
   (c8_wall_clock_checks shaZero (fun _ => true) [] c8wDoc
      VerificationLevelM.standard 1 c8wTick1 c8Tick0 (by decide)
      (by decide) (by decide) (by decide) (by decide) (by decide)
      (by decide)).1 (by decide)⟩

/-- C8 counterexample: tick 1 claims one billion iterations elapsed in
0.9 seconds — shorter than iterations/1e9 = 1 second, which the claim
calls fatal — yet Standard verification returns `valid = true`, because
the code only rejects below half that threshold. -/
theorem c8_half_threshold_speed_accepted :
    lookupTick c8Doc.historicalTicks 1 = some c8Tick1 ∧
    lookupTick c8Doc.historicalTicks 0 = some c8Tick0 ∧
    1 ∈ buildKeyTicks c8Doc.historicalTicks c8Doc.leaves ∧
    durationSince c8Tick1.systemTime c8Tick0.systemTime =
      some 900000000 ∧
    900000000 < c8Tick1.iterations ∧
    (verifyMerkleIntegrity shaZero (fun _ => true) [] c8Doc
      VerificationLevelM.standard).valid = true := by
  refine ⟨by decide, by decide, by decide, by decide, by decide,
    by decide⟩

end BitQuill
